import Mathlib

/-
  Verification development for the gaussformula spreadsheet engine.

  The embedding below translates the TypeScript sources into Lean:

  * Namespace MC embeds the Monte-Carlo arithmetic engine, i.e. the
    ArithmeticHelper class (src/src/interpreter/ArithmeticHelper.ts,
    second revision in the file, lines 1053-2889) together with the
    distribution value classes it imports (GaussianNumber,
    LogNormalNumber, UniformNumber, ConfidenceIntervalNumber,
    SampledDistribution from the matching revision of
    interpreter/InterpreterValue.ts).
  * Namespace CIFirst embeds the CI-first revision of
    src/src/interpreter/InterpreterValue.ts (the named file, lines
    1-474): the ConfidenceIntervalNumber class with interpretation
    auto-detection and its toSamples method.
  * Namespace Lit embeds the cell literal recognizers of
    src/src/NumberLiteralHelper.ts (both revisions of
    numericStringToMaybeNumber that the claims cite).
  * Namespace DG embeds DependencyGraph.setCellEmpty
    (src/src/DependencyGraph/DependencyGraph.ts, lines 135-156) over a
    small graph state; the Graph container class itself is not part of
    the sources, so its primitive operations are modelled from the
    specification.

  JavaScript floating point numbers are modelled by rationals.  Where a
  code path can only be reached through float-specific behaviour
  (NaN from an out-of-bounds array read, a non-finite quotient) the
  embedding represents that behaviour explicitly through Option values;
  each such place is documented at its definition.  The ambient random
  number generator (Math.random consumed through the Box-Muller
  samplers) is made explicit: every sampler is an oracle parameter that
  supplies the sample buffer a constructor would draw.
-/

namespace MC

/-- Number.MAX_SAFE_INTEGER, the overflow guard used by safeDivision. -/
def maxSafeInteger : ℚ := 2 ^ 53 - 1

/-- The hard floor of 1e-12 used by isEffectivelyZero. -/
def epsFloor : ℚ := 1 / 10 ^ 12

/-- ArithmeticHelper.isEffectivelyZero with forDivision = true: the
threshold is max(actualEps * 1000, 1e-12).  The parameter eps is the
helper field actualEps (precisionEpsilon when smartRounding is on,
otherwise 0). -/
def isEffectivelyZeroDiv (eps v : ℚ) : Bool :=
  |v| < max (eps * 1000) epsFloor

/-- ArithmeticHelper.isEffectivelyZero with forDivision = false: the
threshold is max(actualEps, 1e-12). -/
def isEffectivelyZeroMul (eps v : ℚ) : Bool :=
  |v| < max eps epsFloor

/-- ArithmeticHelper.safeDivision.  Returns none where the source
returns null: denominator exactly zero or effectively zero for
division, or a result that is non-finite or exceeds
Number.MAX_SAFE_INTEGER in absolute value.  In the rational model a
quotient by a non-zero denominator is always finite, so the
Number.isFinite branch of the source cannot fire; the magnitude guard
is kept verbatim. -/
def safeDivision (eps a b : ℚ) : Option ℚ :=
  if b = 0 ∨ isEffectivelyZeroDiv eps b then none
  else if maxSafeInteger < |a / b| then none
  else some (a / b)

/-- ArithmeticHelper.safeMultiplication: snaps to exact zero when either
factor is effectively zero. -/
def safeMultiplication (eps l r : ℚ) : ℚ :=
  if isEffectivelyZeroMul eps l ∨ isEffectivelyZeroMul eps r then 0
  else l * r

/-- The sampling environment.  The field eps is the ArithmeticHelper
field actualEps; sampleSize is Config.sampleSize.  The gen fields are
oracles for the sample buffers that generateNormalSamples,
generateLogNormalSamples and generateUniformSamples would draw from the
ambient Math.random stream: the embedding makes the random draw
explicit by supplying, for each pair of distribution parameters, the
buffer the Box-Muller sampler returns.  qlog is an oracle for Math.log,
used by fitLogNormal (its values are never relied upon by a theorem). -/
structure Env where
  eps : ℚ
  sampleSize : ℕ
  genNormal : ℚ → ℚ → List ℚ
  genLogNormal : ℚ → ℚ → List ℚ
  genUniform : ℚ → ℚ → List ℚ
  qlog : ℚ → ℚ

/-- The ExtendedNumber values handled by the Monte-Carlo engine.  num
covers plain JavaScript numbers; the distribution classes carry their
sample buffer (generated at construction in the source).  The rich
scalar wrappers (currency, date, percent) play no role in the cited
claims and are not distinguished from num. -/
inductive DistVal where
  | num (v : ℚ)
  | gaussian (mean variance : ℚ) (samples : List ℚ)
  | lognormal (mean variance : ℚ) (samples : List ℚ)
  | uniform (lo hi : ℚ) (samples : List ℚ)
  | ci (lower upper conf : ℚ)
  | sampled (samples : List ℚ)
  deriving DecidableEq, Repr

namespace DistVal

/-- Tag test for GaussianNumber. -/
def isGaussian : DistVal → Bool
  | .gaussian _ _ _ => true
  | _ => false

/-- Tag test for LogNormalNumber. -/
def isLogNormal : DistVal → Bool
  | .lognormal _ _ _ => true
  | _ => false

/-- Tag test for UniformNumber. -/
def isUniform : DistVal → Bool
  | .uniform _ _ _ => true
  | _ => false

/-- Tag test for ConfidenceIntervalNumber. -/
def isCI : DistVal → Bool
  | .ci _ _ _ => true
  | _ => false

/-- Tag test for SampledDistribution. -/
def isSampled : DistVal → Bool
  | .sampled _ => true
  | _ => false

/-- Tag test for a plain number (typeof v === number in the source). -/
def isNum : DistVal → Bool
  | .num _ => true
  | _ => false

/-- A plain number that is strictly positive; used by
preservesLogNormal. -/
def isPosNum : DistVal → Bool
  | .num q => decide (0 < q)
  | _ => false

/-- The instanceof test that routes an operation to the distribution
path: any of the five distribution classes on either side. -/
def isDistribution (v : DistVal) : Bool :=
  v.isGaussian || v.isLogNormal || v.isUniform || v.isCI || v.isSampled

/-- getRawValue: the representative scalar field val of each class.
GaussianNumber and LogNormalNumber store their mean, UniformNumber the
midpoint, ConfidenceIntervalNumber the midpoint of its bounds, and
SampledDistribution the mean of its samples.  An empty sample list
would give NaN in the source; the rational model yields 0 there, and no
theorem depends on that value. -/
def rawValue : DistVal → ℚ
  | .num v => v
  | .gaussian mean _ _ => mean
  | .lognormal mean _ _ => mean
  | .uniform lo hi _ => (lo + hi) / 2
  | .ci lower upper _ => (lower + upper) / 2
  | .sampled samples => samples.sum / (samples.length : ℚ)

/-- The getSamples method of the four sample-carrying classes; the
empty list corresponds to the source fallback of [] for values without
a buffer. -/
def ownSamples : DistVal → List ℚ
  | .gaussian _ _ samples => samples
  | .lognormal _ _ samples => samples
  | .uniform _ _ samples => samples
  | .sampled samples => samples
  | _ => []

end DistVal

/-- The z-score table of confidenceIntervalToGaussian in the
InterpreterValue revision used by the Monte-Carlo engine
(90 maps to 1.645, 95 to 1.96, 99 to 2.576, anything else to the 95
percent default 1.96). -/
def confidenceToZScore (conf : ℚ) : ℚ :=
  if conf = 90 then 1.645
  else if conf = 95 then 1.96
  else if conf = 99 then 2.576
  else 1.96

/-- confidenceIntervalToGaussian followed by the GaussianNumber
constructor, i.e. ConfidenceIntervalNumber.toGaussian: the mean is the
midpoint, the standard deviation (upper - lower) / (2 z), and the
constructor draws a fresh normal sample buffer. -/
def ciToGaussian (env : Env) (lower upper conf : ℚ) : DistVal :=
  let zScore := confidenceToZScore conf
  let mean := (lower + upper) / 2
  let standardDeviation := (upper - lower) / (2 * zScore)
  let variance := standardDeviation * standardDeviation
  .gaussian mean variance (env.genNormal mean variance)

/-- The CI-conversion step that opens every *Distributions method:
ConfidenceIntervalNumber operands are replaced by their toGaussian
image, all other operands pass through. -/
def convertCI (env : Env) : DistVal → DistVal
  | .ci lower upper conf => ciToGaussian env lower upper conf
  | v => v

/-- ArithmeticHelper.getSamplesFromValue: distribution values hand out
their own buffer, anything else is broadcast to a constant vector of
length Config.sampleSize. -/
def getSamplesFromValue (env : Env) (v : DistVal) : List ℚ :=
  if v.isGaussian || v.isSampled || v.isLogNormal || v.isUniform then
    v.ownSamples
  else
    List.replicate env.sampleSize v.rawValue

/-- ArithmeticHelper.calculateMeanAndVariance.  On the empty list the
source would produce NaN; the rational model yields (0, 0). -/
def calculateMeanAndVariance (samples : List ℚ) : ℚ × ℚ :=
  let mean := samples.sum / (samples.length : ℚ)
  let variance := (samples.map (fun b => (b - mean) ^ 2)).sum / (samples.length : ℚ)
  (mean, variance)

/-- ArithmeticHelper.fitLogNormal: drops non-positive samples, fits the
underlying normal parameters on the logs (taken through the Math.log
oracle), with the (0, 1) fallback when no sample is positive. -/
def fitLogNormal (env : Env) (resultSamples : List ℚ) : ℚ × ℚ :=
  let positiveSamples := resultSamples.filter (fun x => 0 < x)
  if positiveSamples.isEmpty then (0, 1)
  else
    let logSamples := positiveSamples.map env.qlog
    let mu := logSamples.sum / (logSamples.length : ℚ)
    let sigma2 := (logSamples.map (fun b => (b - mu) ^ 2)).sum / (logSamples.length : ℚ)
    (mu, sigma2)

/-- ArithmeticHelper.fitUniform: min and max of the samples, with the
plus-minus 0.5 fallback when the samples collapse, and (0, 1) on the
empty list. -/
def fitUniform (resultSamples : List ℚ) : ℚ × ℚ :=
  match resultSamples with
  | [] => (0, 1)
  | h :: t =>
    let a := t.foldl min h
    let b := t.foldl max h
    if b ≤ a then (a - 1/2, a + 1/2) else (a, b)

/-- The operation tags fed to the family-preservation predicates (the
source passes the operator as a string). -/
inductive OpKind where
  | add
  | sub
  | mul
  | div
  | pow
  | scale
  deriving DecidableEq, Repr

/-- ArithmeticHelper.preservesLogNormal: for multiplication and
division both operands log-normal, or one log-normal and the other a
positive plain number; pow needs a plain-number exponent; scale needs a
positive plain-number factor. -/
def preservesLogNormal (op : OpKind) (l r : DistVal) : Bool :=
  match op with
  | .mul | .div =>
    (l.isLogNormal && r.isLogNormal) ||
    (l.isLogNormal && r.isPosNum) ||
    (r.isLogNormal && l.isPosNum)
  | .pow => l.isLogNormal && r.isNum
  | .scale => (l.isLogNormal && r.isPosNum) || (r.isLogNormal && l.isPosNum)
  | _ => false

/-- ArithmeticHelper.preservesUniform: only affine combinations with a
plain number preserve uniformity. -/
def preservesUniform (op : OpKind) (l r : DistVal) : Bool :=
  match op with
  | .add | .sub | .mul | .div =>
    (l.isUniform && r.isNum) || (r.isUniform && l.isNum)
  | _ => false

/-- ArithmeticHelper.elementwiseBinaryOp: both operands are expanded to
sample vectors, the result has the length of the longer one, and each
side is indexed modulo its own length.  The source drops null results
of the callback; the callbacks used for addition, subtraction,
multiplication and pow never return null, so the embedding maps
totally.  Indexing an empty buffer reads undefined and produces NaN in
the source; the rational model yields 0 there (no theorem touches that
case). -/
def elementwiseBinaryOp (env : Env) (l r : DistVal) (op : ℚ → ℚ → ℚ) : List ℚ :=
  let leftSamples := getSamplesFromValue env l
  let rightSamples := getSamplesFromValue env r
  let maxLength := max leftSamples.length rightSamples.length
  (List.range maxLength).map fun i =>
    op (leftSamples.getD (i % leftSamples.length) 0)
       (rightSamples.getD (i % rightSamples.length) 0)

/-- The error kinds reachable from the embedded fragment. -/
inductive ErrType where
  | divByZero
  deriving DecidableEq, Repr

/-- Result of an operator that may return a CellError. -/
inductive ArithResult where
  | cellError (e : ErrType)
  | value (v : DistVal)
  deriving DecidableEq, Repr

/-- safeDivision applied to an array read that may be out of bounds: an
out-of-range index reads undefined in JavaScript, the division then
produces NaN, and safeDivision rejects NaN as non-finite.  The
embedding therefore treats a missing denominator as the null signal. -/
def safeDivisionRead (eps a : ℚ) : Option ℚ → Option ℚ
  | some b => safeDivision eps a b
  | none => none

/-- The division loop of divideDistributions for the log-normal and
uniform branches: iterate over the left samples, index the right
samples modulo their length, and abort with the null signal on the
first unsafe division. -/
def divSamplesModAux (eps : ℚ) (rs : List ℚ) : List ℚ → ℕ → Option (List ℚ)
  | [], _ => some []
  | a :: tl, i =>
    match safeDivisionRead eps a (rs.get? (i % rs.length)) with
    | none => none
    | some q =>
      match divSamplesModAux eps rs tl (i + 1) with
      | none => none
      | some out => some (q :: out)

/-- Entry point of the modulo-indexed division loop. -/
def divSamplesMod (eps : ℚ) (ls rs : List ℚ) : Option (List ℚ) :=
  divSamplesModAux eps rs ls 0

/-- The division loop of the Gaussian-and-Sampled branch of
divideDistributions: the right samples are indexed directly, so a
shorter right buffer runs out of bounds (NaN in the source, the null
signal here). -/
def divSamplesDirectAux (eps : ℚ) (rs : List ℚ) : List ℚ → ℕ → Option (List ℚ)
  | [], _ => some []
  | a :: tl, i =>
    match safeDivisionRead eps a (rs.get? i) with
    | none => none
    | some q =>
      match divSamplesDirectAux eps rs tl (i + 1) with
      | none => none
      | some out => some (q :: out)

/-- Entry point of the directly-indexed division loop. -/
def divSamplesDirect (eps : ℚ) (ls rs : List ℚ) : Option (List ℚ) :=
  divSamplesDirectAux eps rs ls 0

/-- The division loop of the scalar-over-distribution branch: the fixed
numerator is divided by every denominator sample. -/
def divSamplesConst (eps a : ℚ) : List ℚ → Option (List ℚ)
  | [] => some []
  | b :: tl =>
    match safeDivision eps a b with
    | none => none
    | some q =>
      match divSamplesConst eps a tl with
      | none => none
      | some out => some (q :: out)

/-- Elementwise combination where the right samples are indexed
directly (the map with index used by the Gaussian-and-Sampled branches
of addDistributions, subtractDistributions and multiplyDistributions).
An out-of-range read produces NaN in the source; the rational model
reads 0 there, and no theorem depends on those sample values. -/
def zipDirect (ls rs : List ℚ) (op : ℚ → ℚ → ℚ) : List ℚ :=
  ls.mapIdx fun i v => op v (rs.getD i 0)

/-- A GaussianNumber built from the sample statistics of a result
buffer, i.e. new GaussianNumber(mean, variance) after
calculateMeanAndVariance; the constructor draws a fresh buffer. -/
def gaussianFromStats (env : Env) (out : List ℚ) : DistVal :=
  let mv := calculateMeanAndVariance out
  .gaussian mv.1 mv.2 (env.genNormal mv.1 mv.2)

/-- ArithmeticHelper.addDistributions. -/
def addDistributions (env : Env) (left right : DistVal) : DistVal :=
  let l := convertCI env left
  let r := convertCI env right
  if l.isLogNormal || r.isLogNormal then
    .sampled (elementwiseBinaryOp env l r (fun a b => a + b))
  else if l.isUniform || r.isUniform then
    if preservesUniform .add l r then
      let p := fitUniform (elementwiseBinaryOp env l r (fun a b => a + b))
      .uniform p.1 p.2 (env.genUniform p.1 p.2)
    else
      .sampled (elementwiseBinaryOp env l r (fun a b => a + b))
  else if (l.isGaussian || l.isSampled) && (r.isGaussian || r.isSampled) then
    let out := zipDirect l.ownSamples r.ownSamples (fun a b => a + b)
    if l.isGaussian && r.isGaussian then gaussianFromStats env out
    else .sampled out
  else if l.isGaussian || l.isSampled then
    let out := l.ownSamples.map (fun v => v + r.rawValue)
    if l.isGaussian then gaussianFromStats env out else .sampled out
  else
    let out := r.ownSamples.map (fun v => l.rawValue + v)
    if r.isGaussian then gaussianFromStats env out else .sampled out

/-- ArithmeticHelper.subtractDistributions. -/
def subtractDistributions (env : Env) (left right : DistVal) : DistVal :=
  let l := convertCI env left
  let r := convertCI env right
  if l.isLogNormal || r.isLogNormal then
    .sampled (elementwiseBinaryOp env l r (fun a b => a - b))
  else if l.isUniform || r.isUniform then
    if preservesUniform .sub l r then
      let p := fitUniform (elementwiseBinaryOp env l r (fun a b => a - b))
      .uniform p.1 p.2 (env.genUniform p.1 p.2)
    else
      .sampled (elementwiseBinaryOp env l r (fun a b => a - b))
  else if (l.isGaussian || l.isSampled) && (r.isGaussian || r.isSampled) then
    let out := zipDirect l.ownSamples r.ownSamples (fun a b => a - b)
    if l.isGaussian && r.isGaussian then gaussianFromStats env out
    else .sampled out
  else if l.isGaussian || l.isSampled then
    let out := l.ownSamples.map (fun v => v - r.rawValue)
    if l.isGaussian then gaussianFromStats env out else .sampled out
  else
    let out := r.ownSamples.map (fun v => l.rawValue - v)
    if r.isGaussian then gaussianFromStats env out else .sampled out

/-- ArithmeticHelper.multiplyDistributions. -/
def multiplyDistributions (env : Env) (left right : DistVal) : DistVal :=
  let l := convertCI env left
  let r := convertCI env right
  if l.isLogNormal || r.isLogNormal then
    if preservesLogNormal .mul l r then
      let p := fitLogNormal env
        (elementwiseBinaryOp env l r (safeMultiplication env.eps))
      .lognormal p.1 p.2 (env.genLogNormal p.1 p.2)
    else
      .sampled (elementwiseBinaryOp env l r (safeMultiplication env.eps))
  else if l.isUniform || r.isUniform then
    if preservesUniform .mul l r then
      let p := fitUniform (elementwiseBinaryOp env l r (safeMultiplication env.eps))
      .uniform p.1 p.2 (env.genUniform p.1 p.2)
    else
      .sampled (elementwiseBinaryOp env l r (safeMultiplication env.eps))
  else if (l.isGaussian || l.isSampled) && (r.isGaussian || r.isSampled) then
    .sampled (zipDirect l.ownSamples r.ownSamples (safeMultiplication env.eps))
  else if l.isGaussian || l.isSampled then
    let out := l.ownSamples.map (fun v => safeMultiplication env.eps v r.rawValue)
    if l.isGaussian then gaussianFromStats env out else .sampled out
  else
    let out := r.ownSamples.map (fun v => safeMultiplication env.eps l.rawValue v)
    if r.isGaussian then gaussianFromStats env out else .sampled out

/-- ArithmeticHelper.divideDistributions. -/
def divideDistributions (env : Env) (left right : DistVal) : ArithResult :=
  let l := convertCI env left
  let r := convertCI env right
  if l.isLogNormal || r.isLogNormal then
    match divSamplesMod env.eps (getSamplesFromValue env l) (getSamplesFromValue env r) with
    | none => .cellError .divByZero
    | some out =>
      if preservesLogNormal .div l r then
        let p := fitLogNormal env out
        .value (.lognormal p.1 p.2 (env.genLogNormal p.1 p.2))
      else .value (.sampled out)
  else if l.isUniform || r.isUniform then
    match divSamplesMod env.eps (getSamplesFromValue env l) (getSamplesFromValue env r) with
    | none => .cellError .divByZero
    | some out =>
      if preservesUniform .div l r then
        let p := fitUniform out
        .value (.uniform p.1 p.2 (env.genUniform p.1 p.2))
      else .value (.sampled out)
  else if (l.isGaussian || l.isSampled) && (r.isGaussian || r.isSampled) then
    match divSamplesDirect env.eps l.ownSamples r.ownSamples with
    | none => .cellError .divByZero
    | some out => .value (.sampled out)
  else if l.isGaussian || l.isSampled || l.isLogNormal || l.isUniform then
    let rightValue := r.rawValue
    if rightValue = 0 ∨ isEffectivelyZeroDiv env.eps rightValue then
      .cellError .divByZero
    else
      let out := l.ownSamples.map (fun v => (safeDivision env.eps v rightValue).getD 0)
      if l.isGaussian then .value (gaussianFromStats env out)
      else .value (.sampled out)
  else
    match divSamplesConst env.eps l.rawValue r.ownSamples with
    | none => .cellError .divByZero
    | some out =>
      if r.isGaussian then .value (gaussianFromStats env out)
      else .value (.sampled out)

/-- ArithmeticHelper.addWithEpsilonRaw: the scalar sum, snapped to zero
when small relative to the left operand. -/
def addWithEpsilonRaw (eps l r : ℚ) : ℚ :=
  let ret := l + r
  if |ret| < eps * |l| then 0 else ret

/-- ArithmeticHelper.addWithEpsilon: the public addition operator.
Distribution operands are routed to addDistributions; the scalar path
applies addWithEpsilonRaw.  The type-promotion table over rich scalar
subtypes is not distinguished in this model (all scalars are num). -/
def addWithEpsilon (env : Env) (left right : DistVal) : DistVal :=
  if left.isDistribution || right.isDistribution then
    addDistributions env left right
  else
    .num (addWithEpsilonRaw env.eps left.rawValue right.rawValue)

/-- ArithmeticHelper.subtract: the public subtraction operator. -/
def subtract (env : Env) (left right : DistVal) : DistVal :=
  if left.isDistribution || right.isDistribution then
    subtractDistributions env left right
  else
    let l := left.rawValue
    let r := right.rawValue
    let ret := l - r
    .num (if |ret| < env.eps * |l| then 0 else ret)

/-- ArithmeticHelper.multiply: the public multiplication operator. -/
def multiply (env : Env) (left right : DistVal) : DistVal :=
  if left.isDistribution || right.isDistribution then
    multiplyDistributions env left right
  else
    .num (safeMultiplication env.eps left.rawValue right.rawValue)

/-- ArithmeticHelper.divide: the public division operator.
Distribution operands are routed to divideDistributions; the scalar
path guards the denominator and maps the null signal of safeDivision to
CellError(DIV_BY_ZERO). -/
def divide (env : Env) (left right : DistVal) : ArithResult :=
  if left.isDistribution || right.isDistribution then
    divideDistributions env left right
  else
    let rightValue := right.rawValue
    if rightValue = 0 ∨ isEffectivelyZeroDiv env.eps rightValue then
      .cellError .divByZero
    else
      match safeDivision env.eps left.rawValue rightValue with
      | none => .cellError .divByZero
      | some result => .value (.num result)

/-- ArithmeticHelper.unaryMinus.  A GaussianNumber keeps its variance
under a negated mean; a ConfidenceIntervalNumber is collapsed to a
GaussianNumber with variance 0 at the negation of its val field; other
values go through cloneNumber, i.e. the fromNumber constructor of their
class at the negated val (LogNormalNumber keeps its variance,
UniformNumber keeps its upper bound, SampledDistribution shifts its
samples), with fresh buffers where the constructor samples. -/
def unaryMinus (env : Env) : DistVal → DistVal
  | .gaussian mean variance _ =>
    .gaussian (-mean) variance (env.genNormal (-mean) variance)
  | .ci lower upper conf =>
    let v := DistVal.rawValue (.ci lower upper conf)
    .gaussian (-v) 0 (env.genNormal (-v) 0)
  | .num v => .num (-v)
  | .lognormal mean variance _ =>
    .lognormal (-mean) variance (env.genLogNormal (-mean) variance)
  | .uniform lo hi _ =>
    let v := -((lo + hi) / 2)
    .uniform v hi (env.genUniform v hi)
  | .sampled samples =>
    let mean := samples.sum / (samples.length : ℚ)
    .sampled (samples.map (fun s => s - mean + (-mean)))

/-- The sample-length invariant of the specification (section 8.1):
every distribution value carries a buffer of length n, where for a
ConfidenceIntervalNumber the buffer is the one its toGaussian
conversion draws.  Plain numbers carry no buffer. -/
def sampleLenOK (env : Env) (n : ℕ) (v : DistVal) : Prop :=
  match v with
  | .num _ => True
  | _ => (convertCI env v).ownSamples.length = n

end MC

namespace CIFirst

/-- The CIInterpretation union of the CI-first InterpreterValue
revision. -/
inductive CIInterpretation where
  | normal
  | uniform
  | lognormal
  | auto
  deriving DecidableEq, Repr

/-- ConfidenceIntervalNumber.detectInterpretation: non-positive lower
bound forces normal; a positive range spanning a ratio of at least 2
is read as lognormal; narrow positive ranges are normal. -/
def detectInterpretation (lower upper : ℚ) : CIInterpretation :=
  if lower ≤ 0 then .normal
  else if 2 ≤ upper / lower then .lognormal
  else .normal

/-- The state of a constructed ConfidenceIntervalNumber (CI-first
revision): bounds, confidence level, the stored interpretation and the
val field (the median).  The sourceFormat display tag is not modelled. -/
structure ConfidenceIntervalNumber where
  lower : ℚ
  upper : ℚ
  confidenceLevel : ℚ
  interpretation : CIInterpretation
  val : ℚ
  deriving DecidableEq, Repr

/-- ConfidenceIntervalNumber.getMedian for a stored interpretation:
the geometric mean of the bounds under lognormal (through the
Math.sqrt oracle qsqrt), otherwise the midpoint. -/
def getMedian (qsqrt : ℚ → ℚ) (interp : CIInterpretation) (lower upper : ℚ) : ℚ :=
  match interp with
  | .lognormal => qsqrt (lower * upper)
  | _ => (lower + upper) / 2

/-- The ConfidenceIntervalNumber constructor (CI-first revision).  A
missing interpretation option defaults to auto; auto runs
detectInterpretation; a lognormal interpretation with a non-positive
bound falls back to normal; finally val is set to the median.  qsqrt is
the Math.sqrt oracle used only for the val field. -/
def mkCI (qsqrt : ℚ → ℚ) (lower upper confidenceLevel : ℚ)
    (interpOption : Option CIInterpretation) : ConfidenceIntervalNumber :=
  let requested := interpOption.getD .auto
  let detected :=
    if requested = .auto then detectInterpretation lower upper else requested
  let stored :=
    if detected = .lognormal ∧ (lower ≤ 0 ∨ upper ≤ 0) then .normal else detected
  { lower := lower
    upper := upper
    confidenceLevel := confidenceLevel
    interpretation := stored
    val := getMedian qsqrt stored lower upper }

/-- ConfidenceIntervalNumber.getZScoreForConfidence: the lookup table
90 to 1.645, 95 to 1.96, 99 to 2.576, any other confidence level falls
back to 1.645. -/
def getZScoreForConfidence (confidenceLevel : ℚ) : ℚ :=
  if confidenceLevel = 90 then 1.645
  else if confidenceLevel = 95 then 1.96
  else if confidenceLevel = 99 then 2.576
  else 1.645

/-- ConfidenceIntervalNumber.toSamples.  The three sample generators
are oracles for generateNormalSamples, generateUniformSamples and
generateLogNormalSamples (each source generator draws its buffer from
the ambient RNG for the parameters passed here); qlogFn is the Math.log
oracle.  The default branch of the source switch throws on an unknown
interpretation; the embedding returns none there (auto is never stored
by the constructor). -/
def toSamples (genN genU genLN : ℚ → ℚ → List ℚ) (qlogFn : ℚ → ℚ)
    (c : ConfidenceIntervalNumber) : Option (List ℚ) :=
  match c.interpretation with
  | .normal =>
    let zScore := getZScoreForConfidence c.confidenceLevel
    let mean := (c.lower + c.upper) / 2
    let std := (c.upper - c.lower) / (2 * zScore)
    let variance := std * std
    some (genN mean variance)
  | .uniform => some (genU c.lower c.upper)
  | .lognormal =>
    let lnLower := qlogFn c.lower
    let lnUpper := qlogFn c.upper
    let mu := (lnLower + lnUpper) / 2
    let sigma := (lnUpper - lnLower) / 3.29
    let sigma2 := sigma * sigma
    some (genLN mu sigma2)
  | .auto => none

end CIFirst

namespace Lit

/-- The character class matched by the regex token backslash-d. -/
def isDigitChar (c : Char) : Bool := c.isDigit

/-- The whitespace class used by the literal regexes.  The embedding
covers the ASCII whitespace characters; the additional Unicode space
characters matched by the JavaScript class never occur in the inputs
the theorems touch. -/
def isSpaceChar (c : Char) : Bool :=
  c = ' ' || c = '\t' || c = '\n' || c = '\r'

/-- Natural number denoted by a digit run. -/
def digitsNat (ds : List Char) : ℕ :=
  ds.foldl (fun n c => 10 * n + (c.toNat - '0'.toNat)) 0

/-- Rational value of a digit run read as an integer. -/
def digitsVal (ds : List Char) : ℚ := (digitsNat ds : ℚ)

/-- Rational value of a digit run read as a fraction after the decimal
point. -/
def fracVal (ds : List Char) : ℚ := (digitsNat ds : ℚ) / 10 ^ ds.length

/-- Optional sign prefix of a numeric group. -/
def parseSign (s : List Char) : ℚ × List Char :=
  match s with
  | c :: t => if c = '+' then (1, t) else if c = '-' then (-1, t) else (1, s)
  | [] => (1, s)

/-- The numeric capture group of the literal regexes, the pattern
sign? digits* dot? digits+ with the backtracking semantics of the
regex engine: a trailing dot that is not followed by a digit is left
unconsumed, and at least one digit must be consumed overall.  Returns
the value of the group (as Number would read it) and the unconsumed
remainder. -/
def parseNumToken (s : List Char) : Option (ℚ × List Char) :=
  let p := parseSign s
  let sign := p.1
  let s1 := p.2
  let ds1 := s1.takeWhile isDigitChar
  let s2 := s1.dropWhile isDigitChar
  match s2 with
  | c :: s3 =>
    if c = '.' then
      let ds2 := s3.takeWhile isDigitChar
      let s4 := s3.dropWhile isDigitChar
      if ds2.isEmpty then
        if ds1.isEmpty then none
        else some (sign * digitsVal ds1, s2)
      else some (sign * (digitsVal ds1 + fracVal ds2), s4)
    else
      if ds1.isEmpty then none else some (sign * digitsVal ds1, s2)
  | [] =>
    if ds1.isEmpty then none else some (sign * digitsVal ds1, s2)

/-- The two-number body shared by the bracket and parenthesis literal
patterns: an opening delimiter, optional spaces, a numeric group,
optional spaces, a comma, optional spaces, a numeric group, optional
spaces and the closing delimiter ending the input. -/
def matchPairAt (opc clc : Char) (s : List Char) : Option (ℚ × ℚ) :=
  match s with
  | c :: r1 =>
    if c = opc then
      match parseNumToken (r1.dropWhile isSpaceChar) with
      | none => none
      | some (a, r2) =>
        match r2.dropWhile isSpaceChar with
        | c2 :: r3 =>
          if c2 = ',' then
            match parseNumToken (r3.dropWhile isSpaceChar) with
            | none => none
            | some (b, r4) =>
              match r4.dropWhile isSpaceChar with
              | [c3] => if c3 = clc then some (a, b) else none
              | _ => none
          else none
        | [] => none
    else none
  | [] => none

/-- The confidenceIntervalPattern regex: the two letters CI, optional
spaces, then the bracketed pair. -/
def matchCI (s : List Char) : Option (ℚ × ℚ) :=
  match s with
  | c1 :: c2 :: r =>
    if c1 = 'C' ∧ c2 = 'I' then matchPairAt '[' ']' (r.dropWhile isSpaceChar)
    else none
  | _ => none

/-- The bare range pattern of the second revision: a bracketed pair
with no prefix. -/
def matchBracket (s : List Char) : Option (ℚ × ℚ) :=
  matchPairAt '[' ']' s

/-- The rangeToPattern regex of the second revision: a numeric group,
at least one space, the word to (case-insensitive), at least one space
and a final numeric group. -/
def matchRangeTo (s : List Char) : Option (ℚ × ℚ) :=
  match parseNumToken s with
  | none => none
  | some (a, r1) =>
    match r1.takeWhile isSpaceChar with
    | [] => none
    | _ :: _ =>
      match r1.dropWhile isSpaceChar with
      | c1 :: c2 :: r2 =>
        if (c1 = 't' ∨ c1 = 'T') ∧ (c2 = 'o' ∨ c2 = 'O') then
          match r2.takeWhile isSpaceChar with
          | [] => none
          | _ :: _ =>
            match parseNumToken (r2.dropWhile isSpaceChar) with
            | none => none
            | some (b, r3) => if r3.isEmpty then some (a, b) else none
        else none
      | _ => none

/-- The logNormalPattern regex: the letters LN (case-insensitive),
optional spaces, then the parenthesised pair. -/
def matchLogNormalLit (s : List Char) : Option (ℚ × ℚ) :=
  match s with
  | c1 :: c2 :: r =>
    if (c1 = 'L' ∨ c1 = 'l') ∧ (c2 = 'N' ∨ c2 = 'n') then
      matchPairAt '(' ')' (r.dropWhile isSpaceChar)
    else none
  | _ => none

/-- The uniformPattern regex: the letter U (case-insensitive), optional
spaces, then the parenthesised pair. -/
def matchUniformLit (s : List Char) : Option (ℚ × ℚ) :=
  match s with
  | c :: r =>
    if c = 'U' ∨ c = 'u' then matchPairAt '(' ')' (r.dropWhile isSpaceChar)
    else none
  | [] => none

/-- The named-parameter body mu = number, comma, spaces, sigma-squared
= number shared by the Gaussian and Sampled literal regexes.  The flag
flex selects the gaussianPattern variant, which allows optional spaces
around the delimiters; the sampledPattern variant only allows spaces
after the comma. -/
def matchMuSigmaBody (flex : Bool) (s : List Char) : Option (ℚ × ℚ) :=
  let ws : List Char → List Char :=
    fun r => if flex then r.dropWhile isSpaceChar else r
  match ws s with
  | c1 :: r1 =>
    if c1 = 'μ' then
      match ws r1 with
      | c2 :: r2 =>
        if c2 = '=' then
          match parseNumToken (ws r2) with
          | none => none
          | some (a, r3) =>
            match ws r3 with
            | c3 :: r4 =>
              if c3 = ',' then
                match r4.dropWhile isSpaceChar with
                | c4 :: c5 :: r5 =>
                  if c4 = 'σ' ∧ c5 = '²' then
                    match ws r5 with
                    | c6 :: r6 =>
                      if c6 = '=' then
                        match parseNumToken (ws r6) with
                        | none => none
                        | some (b, r7) =>
                          match ws r7 with
                          | [c7] => if c7 = ')' then some (a, b) else none
                          | _ => none
                      else none
                    | [] => none
                  else none
                | _ => none
              else none
            | [] => none
        else none
      | [] => none
    else none
  | [] => none

/-- The gaussianPattern regex: the letter N, optional spaces, an
opening parenthesis and the flexible mu-sigma body. -/
def matchGaussianLit (s : List Char) : Option (ℚ × ℚ) :=
  match s with
  | c :: r =>
    if c = 'N' then
      match r.dropWhile isSpaceChar with
      | c2 :: r2 => if c2 = '(' then matchMuSigmaBody true r2 else none
      | [] => none
    else none
  | [] => none

/-- The sampledPattern regex: the letter S, an opening parenthesis and
the rigid mu-sigma body. -/
def matchSampledLit (s : List Char) : Option (ℚ × ℚ) :=
  match s with
  | c :: r =>
    if c = 'S' then
      match r with
      | c2 :: r2 => if c2 = '(' then matchMuSigmaBody false r2 else none
      | [] => none
    else none
  | [] => none

/-- Exponent suffix and end-of-input check of the numberPattern regex:
either the input ends, or it continues with the letter e, an optional
sign, at least one digit and then ends. -/
def finishExponent (v : ℚ) (s : List Char) : Option ℚ :=
  match s with
  | [] => some v
  | c :: t =>
    if c = 'e' then
      let esign : ℤ × List Char :=
        match t with
        | c2 :: t2 =>
          if c2 = '+' then (1, t2) else if c2 = '-' then (-1, t2) else (1, t)
        | [] => (1, t)
      let ds := esign.2.takeWhile isDigitChar
      let rest := esign.2.dropWhile isDigitChar
      if ds.isEmpty ∨ ¬ rest.isEmpty then none
      else some (v * (10 : ℚ) ^ (esign.1 * (digitsNat ds : ℤ)))
    else none

/-- Fuelled worker for the thousand-separator groups; every iteration
consumes at least four characters, so fuel equal to the input length
never runs out. -/
def thousandLoopAux : ℕ → List Char → List Char → List Char × List Char
  | 0, acc, s => (acc, s)
  | fuel + 1, acc, s =>
    match s with
    | c :: t =>
      if c = ',' then
        let ds := t.takeWhile isDigitChar
        if 3 ≤ ds.length then
          thousandLoopAux fuel (acc ++ ds) (t.dropWhile isDigitChar)
        else (acc, c :: t)
      else (acc, c :: t)
    | [] => (acc, [])

/-- The thousand-separator groups of the numberPattern regex, comma
followed by at least three digits, repeated; the collected digits are
appended to the integer part (numericStringToNumber strips the
separators before calling Number). -/
def thousandLoop (acc : List Char) (s : List Char) : List Char × List Char :=
  thousandLoopAux s.length acc s

/-- The numberPattern regex built with the default separators (decimal
point, comma thousand separator) together with the value
numericStringToNumber reads from a match: sign, then either a leading
decimal point with digits or an integer part with optional thousand
groups and an optional fraction, then an optional exponent ending the
input.  Returns none when the pattern does not match. -/
def evalNumberPattern (s : List Char) : Option ℚ :=
  let p := parseSign s
  let sign := p.1
  let s1 := p.2
  match s1 with
  | c :: t =>
    if c = '.' then
      let ds := t.takeWhile isDigitChar
      if ds.isEmpty then none
      else finishExponent (sign * fracVal ds) (t.dropWhile isDigitChar)
    else
      let ds1 := s1.takeWhile isDigitChar
      if ds1.isEmpty then none
      else
        let tl := thousandLoop ds1 (s1.dropWhile isDigitChar)
        match tl.2 with
        | c2 :: t2 =>
          if c2 = '.' then
            let ds2 := t2.takeWhile isDigitChar
            finishExponent (sign * (digitsVal tl.1 + fracVal ds2))
              (t2.dropWhile isDigitChar)
          else finishExponent (sign * digitsVal tl.1) tl.2
        | [] => some (sign * digitsVal tl.1)
  | [] => none

/-- The outcomes of the first-revision numericStringToMaybeNumber: a
plain number, or the constructor call recorded for each recognized
distribution literal (the constructed objects draw their sample
buffers from the ambient RNG at runtime). -/
inductive ParsedV1 where
  | num (v : ℚ)
  | logNormalLit (mu sigma2 : ℚ)
  | uniformLit (a b : ℚ)
  | gaussianLit (mean variance : ℚ)
  | sampledFromMeanVar (mean variance : ℚ)
  | ciLit (lower upper conf : ℚ)
  deriving DecidableEq, Repr

/-- numericStringToMaybeNumber, first revision of
NumberLiteralHelper.ts (lines 49-123): the literal patterns are tried
in the order LN, U, N, S, CI, plain number; the CI branch requires
lower at most upper and records confidence level 95; the isNaN guards
of the source cannot fire on a matched group and are omitted. -/
def parseV1 (s : String) : Option ParsedV1 :=
  match matchLogNormalLit s.data with
  | some (mu, sigma2) => some (.logNormalLit mu sigma2)
  | none =>
  match matchUniformLit s.data with
  | some (a, b) => some (.uniformLit a b)
  | none =>
  match matchGaussianLit s.data with
  | some (mean, variance) => some (.gaussianLit mean variance)
  | none =>
  match matchSampledLit s.data with
  | some (mean, variance) => some (.sampledFromMeanVar mean variance)
  | none =>
  match matchCI s.data with
  | some (lower, upper) =>
    if lower ≤ upper then some (.ciLit lower upper 95)
    else
      match evalNumberPattern s.data with
      | some q => some (.num q)
      | none => none
  | none =>
    match evalNumberPattern s.data with
    | some q => some (.num q)
    | none => none

/-- The outcomes of the second-revision numericStringToMaybeNumber: a
plain number, the recorded SampledDistribution.fromMeanAndVariance
call, or a constructed CI-first ConfidenceIntervalNumber. -/
inductive ParsedV2 where
  | num (v : ℚ)
  | sampledFromMeanVar (mean variance : ℚ)
  | ciNum (c : CIFirst.ConfidenceIntervalNumber)
  deriving DecidableEq, Repr

/-- The shared tail of the second revision: the sampled literal, then
the plain number pattern. -/
def parseV2Rest (cs : List Char) : Option ParsedV2 :=
  match matchSampledLit cs with
  | some (mean, variance) => some (.sampledFromMeanVar mean variance)
  | none =>
    match evalNumberPattern cs with
    | some q => some (.num q)
    | none => none

/-- numericStringToMaybeNumber, second revision of
NumberLiteralHelper.ts (lines 177-232): the three confidence-interval
formats CI[a, b], [a, b] and a to b are tried in order; a hit with
lower at most upper builds a ConfidenceIntervalNumber at confidence 90
with no interpretation option (hence auto-detection); otherwise the
input falls through to the sampled literal and the plain number
pattern.  qsqrt is the Math.sqrt oracle of the CI constructor. -/
def ciTryV2 (cs : List Char) : Option (ℚ × ℚ) :=
  match matchCI cs with
  | some p => some p
  | none =>
    match matchBracket cs with
    | some p => some p
    | none => matchRangeTo cs

/-- numericStringToMaybeNumber, second revision, continued: dispatch on
the confidence-interval match. -/
def parseV2 (qsqrt : ℚ → ℚ) (s : String) : Option ParsedV2 :=
  match ciTryV2 s.data with
  | some (lower, upper) =>
    if lower ≤ upper then
      some (.ciNum (CIFirst.mkCI qsqrt lower upper 90 none))
    else parseV2Rest s.data
  | none => parseV2Rest s.data

end Lit

namespace DG

/-- The vertex kinds of the dependency graph (section 3.4 of the
specification). -/
inductive VertexKind where
  | value
  | formula
  | array
  | empty
  | range
  | parsingError
  deriving DecidableEq, Repr

/-- Modelled from the spec: the joint state of the Graph container and
the AddressMapping used by DependencyGraph (both classes are only
imported by the sources under verification).  Vertices are integer node
ids; kinds records the class of each allocated vertex (the list is
append-only, removal only touches nodes); edges is the adjacency list
with an edge from a dependency to its dependent; addr is the
AddressMapping as an association list from addresses to node ids.
Dirty and volatile flags play no role in the claim and are not
modelled. -/
structure GraphState where
  nextId : ℕ
  nodes : List ℕ
  kinds : List (ℕ × VertexKind)
  edges : List (ℕ × ℕ)
  addr : List (ℕ × ℕ)
  deriving DecidableEq, Repr

/-- Modelled from the spec: Graph.hasNode. -/
def hasNode (g : GraphState) (v : ℕ) : Bool := g.nodes.contains v

/-- The class of a vertex id. -/
def kindOf (g : GraphState) (v : ℕ) : Option VertexKind :=
  (g.kinds.find? (fun p => p.1 == v)).map (·.2)

/-- Modelled from the spec: Graph.adjacentNodes, the targets of the
outgoing edges of a vertex. -/
def outNeighbors (g : GraphState) (v : ℕ) : List ℕ :=
  (g.edges.filter (fun e => e.1 == v)).map (·.2)

/-- Modelled from the spec: Graph.adjacentNodesCount. -/
def outdegree (g : GraphState) (v : ℕ) : ℕ := (outNeighbors g v).length

/-- The sources of the incoming edges of a vertex: its dependencies in
the dependency graph. -/
def inNeighbors (g : GraphState) (v : ℕ) : List ℕ :=
  (g.edges.filter (fun e => e.2 == v)).map (·.1)

/-- Modelled from the spec: AddressMapping.getCell. -/
def lookupAddr (g : GraphState) (a : ℕ) : Option ℕ :=
  (g.addr.find? (fun p => p.1 == a)).map (·.2)

/-- The address at which a vertex is mapped, used when the cleanup
removes an orphaned empty vertex. -/
def addrOf (g : GraphState) (v : ℕ) : Option ℕ :=
  (g.addr.find? (fun p => p.2 == v)).map (·.1)

/-- Modelled from the spec: AddressMapping.removeCell. -/
def removeCellAddr (g : GraphState) (a : ℕ) : GraphState :=
  { g with addr := g.addr.filter (fun p => p.1 != a) }

/-- Modelled from the spec: AddressMapping.setCell. -/
def setCellAddr (g : GraphState) (a v : ℕ) : GraphState :=
  { g with addr := (a, v) :: g.addr.filter (fun p => p.1 != a) }

/-- Modelled from the spec: Graph.addNodeAndReturnId with a fresh id. -/
def addNode (g : GraphState) (k : VertexKind) : GraphState × ℕ :=
  ({ g with
      nextId := g.nextId + 1
      nodes := g.nextId :: g.nodes
      kinds := (g.nextId, k) :: g.kinds }, g.nextId)

/-- Modelled from the spec: Graph.addEdge. -/
def addEdge (g : GraphState) (u v : ℕ) : GraphState :=
  { g with edges := (u, v) :: g.edges }

/-- Modelled from the spec: the node-removal part of Graph.removeNode,
dropping the vertex and its incident edges. -/
def removeNodeRaw (g : GraphState) (v : ℕ) : GraphState :=
  { g with
      nodes := g.nodes.filter (fun n => n != v)
      edges := g.edges.filter (fun e => e.1 != v && e.2 != v) }

/-- The dependency list Graph.removeNode returns: the in-neighbors of
the removed vertex, each paired with its address in the mapping. -/
def removalDeps (g : GraphState) (v : ℕ) : List (Option ℕ × ℕ) :=
  (inNeighbors g v).map (fun u => (addrOf g u, u))

/-- The removal step of the cleanup worklist: the vertex leaves the
graph, and an empty vertex also leaves the address mapping at the
address recorded when it was enqueued. -/
def cleanupRemove (g : GraphState) (a : Option ℕ) (v : ℕ) : GraphState :=
  if kindOf g v = some .empty then
    match a with
    | some x => removeCellAddr (removeNodeRaw g v) x
    | none => removeNodeRaw g v
  else removeNodeRaw g v

/-- The worklist loop of
DependencyGraph.removeVertexAndCleanupDependencies: a dependency that
is still in the graph, has no outgoing edges left and is a range or
empty vertex is removed in turn through cleanupRemove, and its own
dependencies join the worklist.  The source iterates over a set until
it drains; since every removal deletes a node, the node count bounds
the iterations and the fuel never runs out when it starts above that
bound. -/
def cleanupLoop : ℕ → GraphState → List (Option ℕ × ℕ) → GraphState
  | 0, g, _ => g
  | _ + 1, g, [] => g
  | fuel + 1, g, (a, v) :: rest =>
    if hasNode g v ∧ outdegree g v = 0 ∧
        (kindOf g v = some .range ∨ kindOf g v = some .empty) then
      cleanupLoop fuel (cleanupRemove g a v) (rest ++ removalDeps g v)
    else cleanupLoop fuel g rest

/-- DependencyGraph.removeVertex composed with
removeVertexAndCleanupDependencies (the RangeMapping bookkeeping is
not modelled): the vertex is removed and its dependencies are pruned
by the worklist loop. -/
def removeVertexCleanup (g : GraphState) (v : ℕ) : GraphState :=
  let deps := removalDeps g v
  let g1 := removeNodeRaw g v
  cleanupLoop (g1.nodes.length + 1) g1 deps

/-- DependencyGraph.exchangeGraphNode: allocate the replacement vertex,
store the outgoing neighbors of the old vertex, remove the old vertex
with cleanup, and re-attach an edge from the replacement to every
stored neighbor that survived. -/
def exchangeGraphNode (g : GraphState) (old : ℕ) (k : VertexKind) :
    GraphState × ℕ :=
  let p := addNode g k
  let newId := p.2
  let adjStored := outNeighbors p.1 old
  let g1 := removeVertexCleanup p.1 old
  (adjStored.foldl (fun h t => if hasNode h t then addEdge h newId t else h) g1,
    newId)

/-- DependencyGraph.setCellEmpty (lines 135-156).  A missing vertex is
a no-op.  A vertex with outgoing edges is exchanged for a fresh empty
vertex; if the replacement ends up with no outgoing edges it is removed
again together with the address entry, otherwise it is installed at the
address.  A vertex without outgoing edges is removed outright.  The
array-shrinking step of shrinkPossibleArrayAndGetCell is outside the
modelled fragment; the theorem below is stated for non-array
vertices.  Dirty marking and the returned ContentChanges are not
modelled. -/
def setCellEmpty (g : GraphState) (a : ℕ) : GraphState :=
  match lookupAddr g a with
  | none => g
  | some v =>
    if 0 < outdegree g v then
      let p := exchangeGraphNode g v .empty
      let g2 := p.1
      let e := p.2
      if outdegree g2 e = 0 then
        removeCellAddr (removeVertexCleanup g2 e) a
      else
        setCellAddr g2 a e
    else
      removeCellAddr (removeVertexCleanup g v) a

end DG

/-- A concrete sampling environment used by witnesses: zero epsilon,
two samples per buffer, trivial oracles. -/
def wEnv : MC.Env :=
  { eps := 0
    sampleSize := 2
    genNormal := fun m v => [m, v]
    genLogNormal := fun m v => [m, v]
    genUniform := fun m v => [m, v]
    qlog := id }

/-- A concrete dependency graph used by witnesses: vertex 0 is a value
vertex at address 10, vertex 1 a formula vertex at address 11 that
depends on vertex 0 (one edge from 0 to 1). -/
def gW : DG.GraphState :=
  { nextId := 2
    nodes := [1, 0]
    kinds := [(0, DG.VertexKind.value), (1, DG.VertexKind.formula)]
    edges := [(0, 1)]
    addr := [(10, 0), (11, 1)] }

/-- C6: safe_division(a, b) signals a division-by-zero error exactly
when b is zero, or b is effectively zero for division (absolute value
below max(epsilon * 1000, 1e-12)), or the quotient is non-finite
(impossible over the rationals), or the quotient exceeds 2^53 - 1 in
absolute value; in every other case it returns a / b; and the scalar
divide operator returns CellError(DIV_BY_ZERO) exactly in the error
cases of safe_division and the quotient otherwise. -/
theorem safeDivision_characterization (env : MC.Env) (a b : ℚ) :
    (MC.safeDivision env.eps a b = none ↔
      b = 0 ∨ |b| < max (env.eps * 1000) (1 / 10 ^ 12) ∨
        (2 ^ 53 - 1 : ℚ) < |a / b|)
    ∧ (MC.safeDivision env.eps a b ≠ none →
        MC.safeDivision env.eps a b = some (a / b))
    ∧ (MC.divide env (.num a) (.num b) = .cellError .divByZero ↔
        MC.safeDivision env.eps a b = none)
    ∧ (∀ q, MC.safeDivision env.eps a b = some q →
        MC.divide env (.num a) (.num b) = .value (.num q)) := by
  have hd : MC.divide env (.num a) (.num b) =
      if b = 0 ∨ MC.isEffectivelyZeroDiv env.eps b then .cellError .divByZero
      else
        match MC.safeDivision env.eps a b with
        | none => .cellError .divByZero
        | some result => .value (.num result) := rfl
  have heff : (MC.isEffectivelyZeroDiv env.eps b = true) ↔
      |b| < max (env.eps * 1000) (1 / 10 ^ 12) := by
    simp [MC.isEffectivelyZeroDiv, MC.epsFloor]
  have hnone : MC.safeDivision env.eps a b = none ↔
      (b = 0 ∨ MC.isEffectivelyZeroDiv env.eps b) ∨
        MC.maxSafeInteger < |a / b| := by
    unfold MC.safeDivision
    split_ifs with h1 h2
    · simp [h1]
    · simp [h1, h2]
    · simp [h1, h2]
  refine ⟨?_, fun h => ?_, ?_, fun q hq => ?_⟩
  · rw [hnone, heff, MC.maxSafeInteger, or_assoc]
  · unfold MC.safeDivision at h ⊢
    split_ifs at h ⊢ <;> first | rfl | exact absurd rfl h
  · rw [hd]
    by_cases h1 : b = 0 ∨ MC.isEffectivelyZeroDiv env.eps b
    · rw [if_pos h1]
      have : MC.safeDivision env.eps a b = none := by
        unfold MC.safeDivision
        rw [if_pos h1]
      simp [this]
    · rw [if_neg h1]
      cases hsd : MC.safeDivision env.eps a b with
      | none => simp [hsd]
      | some q => simp [hsd]
  · rw [hd]
    have h1 : ¬ (b = 0 ∨ MC.isEffectivelyZeroDiv env.eps b) := by
      intro hcon
      unfold MC.safeDivision at hq
      rw [if_pos hcon] at hq
      exact Option.noConfusion hq
    rw [if_neg h1, hq]

unseal Rat.mul Rat.inv Rat.add Rat.sub Rat.ofScientific in
/-- Witness for C6 at concrete inputs: dividing 6 by 3 is accepted by
safe_division and the divide operator returns the quotient. -/
theorem safeDivision_characterization_witness :
    MC.safeDivision wEnv.eps 6 3 = some (6 / 3 : ℚ)
    ∧ MC.divide wEnv (.num 6) (.num 3) = .value (.num 2) :=
  ⟨(safeDivision_characterization wEnv 6 3).2.1 (by decide),
    (safeDivision_characterization wEnv 6 3).2.2.2 2 (by decide)⟩

/-- Helper: detectInterpretation selects lognormal exactly on positive
lower bounds with a ratio of at least 2. -/
theorem detectInterpretation_lognormal_iff (lower upper : ℚ) :
    CIFirst.detectInterpretation lower upper = .lognormal ↔
      0 < lower ∧ 2 ≤ upper / lower := by
  unfold CIFirst.detectInterpretation
  split_ifs with h1 h2
  · constructor
    · intro h
      exact absurd h (by decide)
    · rintro ⟨hl, -⟩
      exact absurd h1 (not_le.mpr hl)
  · exact ⟨fun _ => ⟨lt_of_not_le h1, h2⟩, fun _ => rfl⟩
  · constructor
    · intro h
      exact absurd h (by decide)
    · rintro ⟨-, hr⟩
      exact absurd hr h2

/-- C2: constructing a ConfidenceIntervalNumber with requested
interpretation LogNormal and a non-positive bound stores Normal; with
requested interpretation Auto (or no option, which defaults to Auto)
the stored interpretation is LogNormal exactly when the lower bound is
positive and the ratio of the bounds is at least 2, and otherwise
Normal. -/
theorem ciFirst_interpretation_rules (qsqrt : ℚ → ℚ) (lower upper conf : ℚ) :
    ((lower ≤ 0 ∨ upper ≤ 0) →
      (CIFirst.mkCI qsqrt lower upper conf (some .lognormal)).interpretation =
        .normal)
    ∧ ((CIFirst.mkCI qsqrt lower upper conf (some .auto)).interpretation =
          .lognormal ↔ 0 < lower ∧ 2 ≤ upper / lower)
    ∧ ((CIFirst.mkCI qsqrt lower upper conf none).interpretation =
          .lognormal ↔ 0 < lower ∧ 2 ≤ upper / lower)
    ∧ ((CIFirst.mkCI qsqrt lower upper conf (some .auto)).interpretation =
          .lognormal ∨
        (CIFirst.mkCI qsqrt lower upper conf (some .auto)).interpretation =
          .normal) := by
  have hauto : ∀ o, o = some CIFirst.CIInterpretation.auto ∨ o = none →
      ((CIFirst.mkCI qsqrt lower upper conf o).interpretation = .lognormal ↔
        0 < lower ∧ 2 ≤ upper / lower) := by
    intro o ho
    have hrep : (CIFirst.mkCI qsqrt lower upper conf o).interpretation =
        (if CIFirst.detectInterpretation lower upper = .lognormal ∧
            (lower ≤ 0 ∨ upper ≤ 0) then .normal
          else CIFirst.detectInterpretation lower upper) := by
      rcases ho with rfl | rfl <;> rfl
    rw [hrep]
    constructor
    · intro h
      split_ifs at h with hif
      exact (detectInterpretation_lognormal_iff lower upper).mp h
    · intro h
      have hdet := (detectInterpretation_lognormal_iff lower upper).mpr h
      have hup : 0 < upper := by
        have h2l : 2 * lower ≤ upper := by
          have := (le_div_iff₀ h.1).mp h.2
          linarith
        linarith [h.1]
      rw [if_neg (by
        rintro ⟨-, hbad | hbad⟩
        · exact absurd hbad (not_le.mpr h.1)
        · exact absurd hbad (not_le.mpr hup))]
      exact hdet
  have hlog : (CIFirst.mkCI qsqrt lower upper conf
      (some .lognormal)).interpretation =
      (if CIFirst.CIInterpretation.lognormal = .lognormal ∧
          (lower ≤ 0 ∨ upper ≤ 0) then .normal else .lognormal) := rfl
  have hax : (CIFirst.mkCI qsqrt lower upper conf
      (some .auto)).interpretation =
      (if CIFirst.detectInterpretation lower upper = .lognormal ∧
          (lower ≤ 0 ∨ upper ≤ 0) then .normal
        else CIFirst.detectInterpretation lower upper) := rfl
  refine ⟨?_, hauto _ (Or.inl rfl), hauto _ (Or.inr rfl), ?_⟩
  · intro h
    rw [hlog, if_pos ⟨rfl, h⟩]
  · rw [hax]
    split_ifs with hif
    · right
      rfl
    · unfold CIFirst.detectInterpretation
      split_ifs <;> simp

/-- Witness for C2 at concrete inputs: a requested LogNormal over
bounds -1 and 5 falls back to Normal, and Auto over bounds 10 and 20
(ratio exactly 2) detects LogNormal. -/
theorem ciFirst_interpretation_rules_witness :
    (CIFirst.mkCI id (-1) 5 90 (some .lognormal)).interpretation = .normal
    ∧ (CIFirst.mkCI id 10 20 90 (some .auto)).interpretation = .lognormal :=
  ⟨(ciFirst_interpretation_rules id (-1) 5 90).1 (Or.inl (by norm_num)),
    ((ciFirst_interpretation_rules id 10 20 90).2.1).mpr (by norm_num)⟩

/-- C7: for a ConfidenceIntervalNumber with stored interpretation
Normal, toSamples draws from the normal distribution with mean
(lower + upper) / 2 and standard deviation
(upper - lower) / (2 z), where z comes from the table 90 to 1.645,
95 to 1.96, 99 to 2.576 and defaults to 1.645 for any other confidence
level (the draw is expressed through the generateNormalSamples oracle
genN, which receives exactly that mean and variance). -/
theorem ciFirst_toSamples_normal (genN genU genLN : ℚ → ℚ → List ℚ)
    (qlogFn : ℚ → ℚ) (c : CIFirst.ConfidenceIntervalNumber)
    (h : c.interpretation = .normal) :
    CIFirst.toSamples genN genU genLN qlogFn c =
      some (genN ((c.lower + c.upper) / 2)
        (((c.upper - c.lower) /
            (2 * (if c.confidenceLevel = 90 then 1.645
              else if c.confidenceLevel = 95 then 1.96
              else if c.confidenceLevel = 99 then 2.576 else 1.645))) *
          ((c.upper - c.lower) /
            (2 * (if c.confidenceLevel = 90 then 1.645
              else if c.confidenceLevel = 95 then 1.96
              else if c.confidenceLevel = 99 then 2.576 else 1.645))))) := by
  unfold CIFirst.toSamples
  rw [h]
  rfl

unseal Rat.mul Rat.inv Rat.add Rat.sub Rat.ofScientific in
/-- Witness for C7: the CI 10 to 12 at 95 percent confidence is stored
as Normal by the constructor, and its samples are drawn at mean 11 and
variance 625/2401, the square of 2 / (2 * 1.96). -/
theorem ciFirst_toSamples_normal_witness :
    CIFirst.toSamples (fun m v => [m, v]) (fun a b => [a, b])
        (fun m v => [m, v]) id (CIFirst.mkCI id 10 12 95 none) =
      some [11, 625 / 2401] := by
  rw [ciFirst_toSamples_normal (fun m v => [m, v]) (fun a b => [a, b])
    (fun m v => [m, v]) id (CIFirst.mkCI id 10 12 95 none) (by decide)]
  decide

/-- C10: unary minus collapses a ConfidenceIntervalNumber to a
GaussianNumber with mean equal to the negation of its val field and
variance 0 (all uncertainty discarded), while unary minus on a
GaussianNumber negates the mean and preserves the variance. -/
theorem unaryMinus_ci_and_gaussian (env : MC.Env) :
    (∀ lower upper conf : ℚ,
      MC.unaryMinus env (.ci lower upper conf) =
        .gaussian (-MC.DistVal.rawValue (.ci lower upper conf)) 0
          (env.genNormal (-MC.DistVal.rawValue (.ci lower upper conf)) 0))
    ∧ (∀ (mean variance : ℚ) (samples : List ℚ),
      MC.unaryMinus env (.gaussian mean variance samples) =
        .gaussian (-mean) variance (env.genNormal (-mean) variance)) :=
  ⟨fun _ _ _ => rfl, fun _ _ _ => rfl⟩

/-- C3: addition and subtraction of two GaussianNumbers, or of a
GaussianNumber and a plain scalar, produce a GaussianNumber;
multiplication of two GaussianNumbers produces a SampledDistribution
(normality is not preserved), while a GaussianNumber times a plain
scalar produces a GaussianNumber. -/
theorem gaussian_family_classification (env : MC.Env) :
    (∀ (m1 v1 m2 v2 : ℚ) (s1 s2 : List ℚ),
      (MC.addWithEpsilon env (.gaussian m1 v1 s1) (.gaussian m2 v2 s2)).isGaussian
          = true
      ∧ (MC.subtract env (.gaussian m1 v1 s1) (.gaussian m2 v2 s2)).isGaussian
          = true)
    ∧ (∀ (m v c : ℚ) (s : List ℚ),
      (MC.addWithEpsilon env (.gaussian m v s) (.num c)).isGaussian = true
      ∧ (MC.addWithEpsilon env (.num c) (.gaussian m v s)).isGaussian = true
      ∧ (MC.subtract env (.gaussian m v s) (.num c)).isGaussian = true
      ∧ (MC.subtract env (.num c) (.gaussian m v s)).isGaussian = true)
    ∧ (∀ (m1 v1 m2 v2 : ℚ) (s1 s2 : List ℚ),
      (MC.multiply env (.gaussian m1 v1 s1) (.gaussian m2 v2 s2)).isSampled
          = true)
    ∧ (∀ (m v c : ℚ) (s : List ℚ),
      (MC.multiply env (.gaussian m v s) (.num c)).isGaussian = true
      ∧ (MC.multiply env (.num c) (.gaussian m v s)).isGaussian = true) :=
  ⟨fun _ _ _ _ _ _ => ⟨rfl, rfl⟩,
    fun _ _ _ _ => ⟨rfl, rfl, rfl, rfl⟩,
    fun _ _ _ _ _ _ => rfl,
    fun _ _ _ _ => ⟨rfl, rfl⟩⟩

/-- Helper: a successful numeric group starts with a sign, a dot or a
digit. -/
theorem parseNumToken_head (cs : List Char) (x : ℚ × List Char)
    (h : Lit.parseNumToken cs = some x) :
    ∃ c t, cs = c :: t ∧
      (c = '+' ∨ c = '-' ∨ c = '.' ∨ Lit.isDigitChar c = true) := by
  cases cs with
  | nil =>
    rw [show Lit.parseNumToken [] = none from rfl] at h
    exact Option.noConfusion h
  | cons c t =>
    by_cases hc : c = '+' ∨ c = '-' ∨ c = '.' ∨ Lit.isDigitChar c = true
    · exact ⟨c, t, rfl, hc⟩
    · exfalso
      push_neg at hc
      have hdig : Lit.isDigitChar c = false := by
        cases hh : Lit.isDigitChar c
        · rfl
        · exact absurd hh hc.2.2.2
      have hnone : Lit.parseNumToken (c :: t) = none := by
        simp [Lit.parseNumToken, Lit.parseSign, hc.1, hc.2.1, hc.2.2.1, hdig,
          List.takeWhile_cons, List.dropWhile_cons]
      rw [hnone] at h
      exact Option.noConfusion h

/-- Helper: a character that can start a numeric group is not a letter
C or an opening bracket. -/
theorem numStart_ne_CI (c : Char)
    (hc : c = '+' ∨ c = '-' ∨ c = '.' ∨ Lit.isDigitChar c = true) :
    c ≠ 'C' ∧ c ≠ '[' := by
  constructor <;> rintro rfl <;> rcases hc with h | h | h | h <;>
    revert h <;> decide

/-- Helper: an input of the form number to number matches neither the
CI[...] pattern nor the bare bracket pattern. -/
theorem rangeTo_disjoint (cs : List Char) (x : ℚ × ℚ)
    (h : Lit.matchRangeTo cs = some x) :
    Lit.matchCI cs = none ∧ Lit.matchBracket cs = none := by
  have hnum : ∃ y, Lit.parseNumToken cs = some y := by
    unfold Lit.matchRangeTo at h
    cases hp : Lit.parseNumToken cs with
    | none => rw [hp] at h; exact Option.noConfusion h
    | some y => exact ⟨y, rfl⟩
  obtain ⟨y, hy⟩ := hnum
  obtain ⟨c, t, rfl, hc⟩ := parseNumToken_head cs y hy
  have hne := numStart_ne_CI c hc
  constructor
  · cases t with
    | nil => rfl
    | cons c2 r =>
      unfold Lit.matchCI
      exact if_neg (fun hh => hne.1 hh.1)
  · unfold Lit.matchBracket Lit.matchPairAt
    exact if_neg hne.2

unseal Rat.mul Rat.inv Rat.add Rat.sub Rat.ofScientific in
/-- C5 counterexample: the input 30 to 10 is of the form number to
number, yet the parser yields no value at all (the bounds are out of
order), so the claim as stated fails. -/
theorem parseV2_rangeTo_out_of_order :
    Lit.matchRangeTo ("30 to 10".data) = some (30, 10)
    ∧ Lit.parseV2 id "30 to 10" = none := by
  decide

unseal Rat.mul Rat.inv Rat.add Rat.sub Rat.ofScientific in
/-- C5 amended: a cell literal of the form number to number
(case-insensitive) with lower at most upper yields a
ConfidenceIntervalNumber at confidence level 90 with the two numbers as
bounds; in particular 10 to 20 produces the confidence interval with
bounds 10 and 20 whose auto-detected interpretation is LogNormal
(ratio exactly 2). -/
theorem parseV2_rangeTo_ci (qsqrt : ℚ → ℚ) (s : String) (l u : ℚ)
    (hm : Lit.matchRangeTo s.data = some (l, u)) (hle : l ≤ u) :
    Lit.parseV2 qsqrt s = some (.ciNum (CIFirst.mkCI qsqrt l u 90 none))
    ∧ (CIFirst.mkCI qsqrt l u 90 none).confidenceLevel = 90
    ∧ (CIFirst.mkCI qsqrt l u 90 none).lower = l
    ∧ (CIFirst.mkCI qsqrt l u 90 none).upper = u
    ∧ (Lit.parseV2 id "10 to 20" =
        some (.ciNum (CIFirst.mkCI id 10 20 90 none))
      ∧ (CIFirst.mkCI id 10 20 90 none).lower = 10
      ∧ (CIFirst.mkCI id 10 20 90 none).upper = 20
      ∧ (CIFirst.mkCI id 10 20 90 none).confidenceLevel = 90
      ∧ (CIFirst.mkCI id 10 20 90 none).interpretation = .lognormal) := by
  obtain ⟨hci, hbr⟩ := rangeTo_disjoint s.data (l, u) hm
  refine ⟨?_, rfl, rfl, rfl, by decide⟩
  have hciTry : Lit.ciTryV2 s.data = some (l, u) := by
    unfold Lit.ciTryV2
    simp only [hci, hbr, hm]
  unfold Lit.parseV2
  simp only [hciTry]
  exact if_pos hle

unseal Rat.mul Rat.inv Rat.add Rat.sub Rat.ofScientific in
/-- Witness for C5 at the concrete input 10 to 20. -/
theorem parseV2_rangeTo_ci_witness :
    Lit.parseV2 id "10 to 20" =
      some (.ciNum (CIFirst.mkCI id 10 20 90 none)) :=
  (parseV2_rangeTo_ci id "10 to 20" 10 20 (by decide) (by decide)).1

unseal Rat.mul Rat.inv Rat.add Rat.sub Rat.ofScientific in
/-- C4 counterexample: the literal CI[10, 20] parses to a confidence
interval whose confidence level is 95, not the claimed 90. -/
theorem parseV1_ci_confidence_is_95 :
    Lit.parseV1 "CI[10, 20]" = some (.ciLit 10 20 95)
    ∧ (95 : ℚ) ≠ 90 := by
  refine ⟨by decide, by norm_num⟩

/-- C4 amended: parsing a cell literal of the form CI[a, b] with a at
most b yields a ConfidenceIntervalNumber at confidence level 95 with
the two numbers as bounds (the cited revision passes 95 explicitly). -/
theorem parseV1_ci (s : String) (l u : ℚ)
    (hm : Lit.matchCI s.data = some (l, u)) (hle : l ≤ u) :
    Lit.parseV1 s = some (.ciLit l u 95) := by
  have hshape : ∃ r, s.data = 'C' :: 'I' :: r := by
    cases hd : s.data with
    | nil => rw [hd] at hm; exact Option.noConfusion hm
    | cons c1 t =>
      cases t with
      | nil => rw [hd] at hm; exact Option.noConfusion hm
      | cons c2 r =>
        rw [hd] at hm
        have hred : Lit.matchCI (c1 :: c2 :: r) =
            (if c1 = 'C' ∧ c2 = 'I' then
              Lit.matchPairAt '[' ']' (r.dropWhile Lit.isSpaceChar)
            else none) := rfl
        rw [hred] at hm
        by_cases hcc : c1 = 'C' ∧ c2 = 'I'
        · exact ⟨r, by rw [hcc.1, hcc.2]⟩
        · rw [if_neg hcc] at hm
          exact Option.noConfusion hm
  obtain ⟨r, hd⟩ := hshape
  have h1 : Lit.matchLogNormalLit s.data = none := by
    rw [hd]
    unfold Lit.matchLogNormalLit
    exact if_neg (by decide)
  have h2 : Lit.matchUniformLit s.data = none := by
    rw [hd]
    unfold Lit.matchUniformLit
    exact if_neg (by decide)
  have h3 : Lit.matchGaussianLit s.data = none := by
    rw [hd]
    unfold Lit.matchGaussianLit
    exact if_neg (by decide)
  have h4 : Lit.matchSampledLit s.data = none := by
    rw [hd]
    unfold Lit.matchSampledLit
    exact if_neg (by decide)
  unfold Lit.parseV1
  simp only [h1, h2, h3, h4, hm]
  exact if_pos hle

unseal Rat.mul Rat.inv Rat.add Rat.sub Rat.ofScientific in
/-- Witness for the C4 amended theorem at the concrete input
CI[10, 20]. -/
theorem parseV1_ci_witness :
    Lit.parseV1 "CI[10, 20]" = some (.ciLit 10 20 95) :=
  parseV1_ci "CI[10, 20]" 10 20 (by decide) (by decide)

/-- Helper: safe_division signals null on a denominator that is zero or
effectively zero for division. -/
theorem safeDivision_none_of_trigger (eps a q : ℚ)
    (h : q = 0 ∨ MC.isEffectivelyZeroDiv eps q = true) :
    MC.safeDivision eps a q = none := by
  unfold MC.safeDivision
  rw [if_pos h]

/-- Helper: the modulo-indexed division loop aborts whenever some
denominator position at or after the current index triggers the
division-by-zero guard. -/
theorem divSamplesModAux_none (eps : ℚ) (rs : List ℚ) :
    ∀ (ls : List ℚ) (i j : ℕ), ls.length + i = rs.length → i ≤ j →
      ∀ (hj : j < rs.length),
      (rs.get ⟨j, hj⟩ = 0 ∨
        MC.isEffectivelyZeroDiv eps (rs.get ⟨j, hj⟩) = true) →
      MC.divSamplesModAux eps rs ls i = none := by
  intro ls
  induction ls with
  | nil =>
    intro i j hlen hij hj htr
    simp only [List.length_nil, Nat.zero_add] at hlen
    omega
  | cons a tl ih =>
    intro i j hlen hij hj htr
    unfold MC.divSamplesModAux
    rcases eq_or_lt_of_le hij with rfl | hlt
    · have hilt : i < rs.length := hj
      have hmod : i % rs.length = i := Nat.mod_eq_of_lt hilt
      rw [hmod, List.get?_eq_get hj]
      simp only [MC.safeDivisionRead]
      rw [safeDivision_none_of_trigger eps a _ htr]
    · cases hsd : MC.safeDivisionRead eps a (rs.get? (i % rs.length)) with
      | none => simp [hsd]
      | some q =>
        simp only [hsd]
        have hlen2 : tl.length + (i + 1) = rs.length := by
          simp only [List.length_cons] at hlen
          omega
        rw [ih (i + 1) j hlen2 hlt hj htr]

/-- Helper: the modulo-indexed division loop aborts when any
denominator sample triggers the guard, provided both buffers have the
same length. -/
theorem divSamplesMod_none (eps : ℚ) (ls rs : List ℚ)
    (hlen : ls.length = rs.length)
    (h : ∃ q ∈ rs, q = 0 ∨ MC.isEffectivelyZeroDiv eps q = true) :
    MC.divSamplesMod eps ls rs = none := by
  obtain ⟨q, hq, htr⟩ := h
  obtain ⟨⟨j, hj⟩, rfl⟩ := List.mem_iff_get.mp hq
  exact divSamplesModAux_none eps rs ls 0 j (by omega) (Nat.zero_le j) hj htr

/-- Helper: the directly-indexed division loop aborts whenever some
denominator position at or after the current index triggers the
guard. -/
theorem divSamplesDirectAux_none (eps : ℚ) (rs : List ℚ) :
    ∀ (ls : List ℚ) (i j : ℕ), ls.length + i = rs.length → i ≤ j →
      ∀ (hj : j < rs.length),
      (rs.get ⟨j, hj⟩ = 0 ∨
        MC.isEffectivelyZeroDiv eps (rs.get ⟨j, hj⟩) = true) →
      MC.divSamplesDirectAux eps rs ls i = none := by
  intro ls
  induction ls with
  | nil =>
    intro i j hlen hij hj htr
    simp only [List.length_nil, Nat.zero_add] at hlen
    omega
  | cons a tl ih =>
    intro i j hlen hij hj htr
    unfold MC.divSamplesDirectAux
    rcases eq_or_lt_of_le hij with rfl | hlt
    · rw [List.get?_eq_get hj]
      simp only [MC.safeDivisionRead]
      rw [safeDivision_none_of_trigger eps a _ htr]
    · cases hsd : MC.safeDivisionRead eps a (rs.get? i) with
      | none => simp [hsd]
      | some q =>
        simp only [hsd]
        have hlen2 : tl.length + (i + 1) = rs.length := by
          simp only [List.length_cons] at hlen
          omega
        rw [ih (i + 1) j hlen2 hlt hj htr]

/-- Helper: the directly-indexed division loop aborts when any
denominator sample triggers the guard, provided both buffers have the
same length. -/
theorem divSamplesDirect_none (eps : ℚ) (ls rs : List ℚ)
    (hlen : ls.length = rs.length)
    (h : ∃ q ∈ rs, q = 0 ∨ MC.isEffectivelyZeroDiv eps q = true) :
    MC.divSamplesDirect eps ls rs = none := by
  obtain ⟨q, hq, htr⟩ := h
  obtain ⟨⟨j, hj⟩, rfl⟩ := List.mem_iff_get.mp hq
  exact divSamplesDirectAux_none eps rs ls 0 j (by omega) (Nat.zero_le j) hj htr

/-- Helper: the scalar-numerator division loop aborts when any
denominator sample triggers the guard. -/
theorem divSamplesConst_none (eps a : ℚ) (rs : List ℚ)
    (h : ∃ q ∈ rs, q = 0 ∨ MC.isEffectivelyZeroDiv eps q = true) :
    MC.divSamplesConst eps a rs = none := by
  induction rs with
  | nil => simp at h
  | cons b tl ih =>
    unfold MC.divSamplesConst
    rcases h with ⟨q, hq, htr⟩
    rcases List.mem_cons.mp hq with rfl | hmem
    · rw [safeDivision_none_of_trigger eps a q htr]
    · cases hsd : MC.safeDivision eps a b with
      | none => simp [hsd]
      | some p =>
        simp only [hsd]
        rw [ih ⟨q, hmem, htr⟩]

/-- Helper: CI conversion never yields a ConfidenceIntervalNumber. -/
theorem convertCI_isCI (env : MC.Env) (v : MC.DistVal) :
    (MC.convertCI env v).isCI = false := by
  cases v <;> rfl

/-- Helper: CI conversion of a distribution value is a distribution
value. -/
theorem convertCI_isDistribution (env : MC.Env) (v : MC.DistVal)
    (h : v.isDistribution = true) :
    (MC.convertCI env v).isDistribution = true := by
  cases v
  · exact Bool.noConfusion h
  all_goals rfl

/-- Helper: divideDistributions only depends on its operands through
their CI conversion (the conversion is idempotent). -/
theorem divideDistributions_convert (env : MC.Env)
    (left right : MC.DistVal) :
    MC.divideDistributions env left right =
      MC.divideDistributions env (MC.convertCI env left)
        (MC.convertCI env right) := by
  cases left <;> cases right <;> rfl

/-- Helper: divideDistributions on already-converted operands returns
CellError(DIV_BY_ZERO) when the denominator is a distribution with
equal-length buffers and some denominator sample triggers the
division-by-zero guard. -/
theorem divideDistributions_conv_none (env : MC.Env) (n : ℕ)
    (l r : MC.DistVal)
    (hlci : l.isCI = false) (hrci : r.isCI = false)
    (hdist : r.isDistribution = true)
    (hL : l.isNum = true ∨ l.ownSamples.length = n)
    (hR : r.ownSamples.length = n)
    (hsz : env.sampleSize = n)
    (hzero : ∃ q ∈ r.ownSamples,
      q = 0 ∨ MC.isEffectivelyZeroDiv env.eps q = true) :
    MC.divideDistributions env l r = .cellError .divByZero := by
  cases r with
  | num v => exact Bool.noConfusion hdist
  | ci a b c => exact Bool.noConfusion hrci
  | gaussian m2 v2 s2 =>
    simp only [MC.DistVal.ownSamples] at hR hzero
    cases l with
    | ci a b c => exact Bool.noConfusion hlci
    | num c =>
      have hnone := divSamplesConst_none env.eps c s2 hzero
      simp [MC.divideDistributions, MC.convertCI, MC.DistVal.isLogNormal,
        MC.DistVal.isUniform, MC.DistVal.isGaussian, MC.DistVal.isSampled,
        MC.DistVal.ownSamples, MC.DistVal.rawValue, hnone]
    | gaussian m1 v1 s1 =>
      simp [MC.DistVal.isNum, MC.DistVal.ownSamples] at hL
      have hnone := divSamplesDirect_none env.eps s1 s2
        (by omega) hzero
      simp [MC.divideDistributions, MC.convertCI, MC.DistVal.isLogNormal,
        MC.DistVal.isUniform, MC.DistVal.isGaussian, MC.DistVal.isSampled,
        MC.DistVal.ownSamples, hnone]
    | sampled s1 =>
      simp [MC.DistVal.isNum, MC.DistVal.ownSamples] at hL
      have hnone := divSamplesDirect_none env.eps s1 s2
        (by omega) hzero
      simp [MC.divideDistributions, MC.convertCI, MC.DistVal.isLogNormal,
        MC.DistVal.isUniform, MC.DistVal.isGaussian, MC.DistVal.isSampled,
        MC.DistVal.ownSamples, hnone]
    | lognormal m1 v1 s1 =>
      simp [MC.DistVal.isNum, MC.DistVal.ownSamples] at hL
      have hnone := divSamplesMod_none env.eps s1 s2
        (by omega) hzero
      simp [MC.divideDistributions, MC.convertCI, MC.getSamplesFromValue,
        MC.DistVal.isLogNormal, MC.DistVal.isUniform, MC.DistVal.isGaussian,
        MC.DistVal.isSampled, MC.DistVal.ownSamples, hnone]
    | uniform a1 b1 s1 =>
      simp [MC.DistVal.isNum, MC.DistVal.ownSamples] at hL
      have hnone := divSamplesMod_none env.eps s1 s2
        (by omega) hzero
      simp [MC.divideDistributions, MC.convertCI, MC.getSamplesFromValue,
        MC.DistVal.isLogNormal, MC.DistVal.isUniform, MC.DistVal.isGaussian,
        MC.DistVal.isSampled, MC.DistVal.ownSamples, hnone]
  | sampled s2 =>
    simp only [MC.DistVal.ownSamples] at hR hzero
    cases l with
    | ci a b c => exact Bool.noConfusion hlci
    | num c =>
      have hnone := divSamplesConst_none env.eps c s2 hzero
      simp [MC.divideDistributions, MC.convertCI, MC.DistVal.isLogNormal,
        MC.DistVal.isUniform, MC.DistVal.isGaussian, MC.DistVal.isSampled,
        MC.DistVal.ownSamples, MC.DistVal.rawValue, hnone]
    | gaussian m1 v1 s1 =>
      simp [MC.DistVal.isNum, MC.DistVal.ownSamples] at hL
      have hnone := divSamplesDirect_none env.eps s1 s2
        (by omega) hzero
      simp [MC.divideDistributions, MC.convertCI, MC.DistVal.isLogNormal,
        MC.DistVal.isUniform, MC.DistVal.isGaussian, MC.DistVal.isSampled,
        MC.DistVal.ownSamples, hnone]
    | sampled s1 =>
      simp [MC.DistVal.isNum, MC.DistVal.ownSamples] at hL
      have hnone := divSamplesDirect_none env.eps s1 s2
        (by omega) hzero
      simp [MC.divideDistributions, MC.convertCI, MC.DistVal.isLogNormal,
        MC.DistVal.isUniform, MC.DistVal.isGaussian, MC.DistVal.isSampled,
        MC.DistVal.ownSamples, hnone]
    | lognormal m1 v1 s1 =>
      simp [MC.DistVal.isNum, MC.DistVal.ownSamples] at hL
      have hnone := divSamplesMod_none env.eps s1 s2
        (by omega) hzero
      simp [MC.divideDistributions, MC.convertCI, MC.getSamplesFromValue,
        MC.DistVal.isLogNormal, MC.DistVal.isUniform, MC.DistVal.isGaussian,
        MC.DistVal.isSampled, MC.DistVal.ownSamples, hnone]
    | uniform a1 b1 s1 =>
      simp [MC.DistVal.isNum, MC.DistVal.ownSamples] at hL
      have hnone := divSamplesMod_none env.eps s1 s2
        (by omega) hzero
      simp [MC.divideDistributions, MC.convertCI, MC.getSamplesFromValue,
        MC.DistVal.isLogNormal, MC.DistVal.isUniform, MC.DistVal.isGaussian,
        MC.DistVal.isSampled, MC.DistVal.ownSamples, hnone]
  | lognormal m2 v2 s2 =>
    simp only [MC.DistVal.ownSamples] at hR hzero
    cases l with
    | ci a b c => exact Bool.noConfusion hlci
    | num c =>
      have hnone := divSamplesMod_none env.eps (List.replicate env.sampleSize c)
        s2 (by rw [List.length_replicate, hsz, hR]) hzero
      simp [MC.divideDistributions, MC.convertCI, MC.getSamplesFromValue,
        MC.DistVal.isLogNormal, MC.DistVal.isUniform, MC.DistVal.isGaussian,
        MC.DistVal.isSampled, MC.DistVal.isCI, MC.DistVal.ownSamples,
        MC.DistVal.rawValue, hnone]
    | gaussian m1 v1 s1 =>
      simp [MC.DistVal.isNum, MC.DistVal.ownSamples] at hL
      have hnone := divSamplesMod_none env.eps s1 s2
        (by omega) hzero
      simp [MC.divideDistributions, MC.convertCI, MC.getSamplesFromValue,
        MC.DistVal.isLogNormal, MC.DistVal.isUniform, MC.DistVal.isGaussian,
        MC.DistVal.isSampled, MC.DistVal.ownSamples, hnone]
    | sampled s1 =>
      simp [MC.DistVal.isNum, MC.DistVal.ownSamples] at hL
      have hnone := divSamplesMod_none env.eps s1 s2
        (by omega) hzero
      simp [MC.divideDistributions, MC.convertCI, MC.getSamplesFromValue,
        MC.DistVal.isLogNormal, MC.DistVal.isUniform, MC.DistVal.isGaussian,
        MC.DistVal.isSampled, MC.DistVal.ownSamples, hnone]
    | lognormal m1 v1 s1 =>
      simp [MC.DistVal.isNum, MC.DistVal.ownSamples] at hL
      have hnone := divSamplesMod_none env.eps s1 s2
        (by omega) hzero
      simp [MC.divideDistributions, MC.convertCI, MC.getSamplesFromValue,
        MC.DistVal.isLogNormal, MC.DistVal.isUniform, MC.DistVal.isGaussian,
        MC.DistVal.isSampled, MC.DistVal.ownSamples, hnone]
    | uniform a1 b1 s1 =>
      simp [MC.DistVal.isNum, MC.DistVal.ownSamples] at hL
      have hnone := divSamplesMod_none env.eps s1 s2
        (by omega) hzero
      simp [MC.divideDistributions, MC.convertCI, MC.getSamplesFromValue,
        MC.DistVal.isLogNormal, MC.DistVal.isUniform, MC.DistVal.isGaussian,
        MC.DistVal.isSampled, MC.DistVal.ownSamples, hnone]
  | uniform a2 b2 s2 =>
    simp only [MC.DistVal.ownSamples] at hR hzero
    cases l with
    | ci a b c => exact Bool.noConfusion hlci
    | num c =>
      have hnone := divSamplesMod_none env.eps (List.replicate env.sampleSize c)
        s2 (by rw [List.length_replicate, hsz, hR]) hzero
      simp [MC.divideDistributions, MC.convertCI, MC.getSamplesFromValue,
        MC.DistVal.isLogNormal, MC.DistVal.isUniform, MC.DistVal.isGaussian,
        MC.DistVal.isSampled, MC.DistVal.isCI, MC.DistVal.ownSamples,
        MC.DistVal.rawValue, hnone]
    | gaussian m1 v1 s1 =>
      simp [MC.DistVal.isNum, MC.DistVal.ownSamples] at hL
      have hnone := divSamplesMod_none env.eps s1 s2
        (by omega) hzero
      simp [MC.divideDistributions, MC.convertCI, MC.getSamplesFromValue,
        MC.DistVal.isLogNormal, MC.DistVal.isUniform, MC.DistVal.isGaussian,
        MC.DistVal.isSampled, MC.DistVal.ownSamples, hnone]
    | sampled s1 =>
      simp [MC.DistVal.isNum, MC.DistVal.ownSamples] at hL
      have hnone := divSamplesMod_none env.eps s1 s2
        (by omega) hzero
      simp [MC.divideDistributions, MC.convertCI, MC.getSamplesFromValue,
        MC.DistVal.isLogNormal, MC.DistVal.isUniform, MC.DistVal.isGaussian,
        MC.DistVal.isSampled, MC.DistVal.ownSamples, hnone]
    | lognormal m1 v1 s1 =>
      simp [MC.DistVal.isNum, MC.DistVal.ownSamples] at hL
      have hnone := divSamplesMod_none env.eps s1 s2
        (by omega) hzero
      simp [MC.divideDistributions, MC.convertCI, MC.getSamplesFromValue,
        MC.DistVal.isLogNormal, MC.DistVal.isUniform, MC.DistVal.isGaussian,
        MC.DistVal.isSampled, MC.DistVal.ownSamples, hnone]
    | uniform a1 b1 s1 =>
      simp [MC.DistVal.isNum, MC.DistVal.ownSamples] at hL
      have hnone := divSamplesMod_none env.eps s1 s2
        (by omega) hzero
      simp [MC.divideDistributions, MC.convertCI, MC.getSamplesFromValue,
        MC.DistVal.isLogNormal, MC.DistVal.isUniform, MC.DistVal.isGaussian,
        MC.DistVal.isSampled, MC.DistVal.ownSamples, hnone]

/-- C1: for every division whose denominator operand is a distribution
value (Gaussian, LogNormal, Uniform, ConfidenceInterval or Sampled),
if any single denominator sample is zero or effectively zero for
division, the divide operation returns CellError(DIV_BY_ZERO) as the
result of the whole expression and no partial sampled result is
produced.  The sample buffers are assumed to obey the sample-length
invariant of the specification (every buffer has length n, with
Config.sampleSize = n); for a ConfidenceInterval denominator the
samples are those of its toGaussian conversion. -/
theorem divide_distribution_denominator_zero (env : MC.Env) (n : ℕ)
    (left right : MC.DistVal)
    (hdist : right.isDistribution = true)
    (hL : MC.sampleLenOK env n left) (hR : MC.sampleLenOK env n right)
    (hsz : env.sampleSize = n)
    (hzero : ∃ q ∈ (MC.convertCI env right).ownSamples,
      q = 0 ∨ MC.isEffectivelyZeroDiv env.eps q = true) :
    MC.divide env left right = .cellError .divByZero := by
  have hcond : (left.isDistribution || right.isDistribution) = true := by
    rw [hdist, Bool.or_true]
  have hstep : MC.divide env left right =
      MC.divideDistributions env left right := by
    unfold MC.divide
    rw [if_pos hcond]
  rw [hstep, divideDistributions_convert]
  refine divideDistributions_conv_none env n _ _ (convertCI_isCI env left)
    (convertCI_isCI env right) (convertCI_isDistribution env right hdist)
    ?_ ?_ hsz hzero
  · cases left with
    | num v => exact Or.inl rfl
    | gaussian a b c => exact Or.inr hL
    | lognormal a b c => exact Or.inr hL
    | uniform a b c => exact Or.inr hL
    | ci a b c => exact Or.inr hL
    | sampled a => exact Or.inr hL
  · cases right with
    | num v => exact Bool.noConfusion hdist
    | gaussian a b c => exact hR
    | lognormal a b c => exact hR
    | uniform a b c => exact hR
    | ci a b c => exact hR
    | sampled a => exact hR

unseal Rat.mul Rat.inv Rat.add Rat.sub Rat.ofScientific in
/-- Witness for C1 at a concrete input: dividing the scalar 5 by a
Gaussian whose buffer contains the sample 0 returns
CellError(DIV_BY_ZERO). -/
theorem divide_distribution_denominator_zero_witness :
    MC.divide wEnv (.num 5) (.gaussian 1 1 [0, 1]) =
      .cellError .divByZero :=
  divide_distribution_denominator_zero wEnv 2 (.num 5)
    (.gaussian 1 1 [0, 1]) (by decide) trivial rfl rfl
    ⟨0, by decide, Or.inl rfl⟩

/-- Helper: hasNode tests membership in the node list. -/
theorem hasNode_iff_mem (g : DG.GraphState) (x : ℕ) :
    DG.hasNode g x = true ↔ x ∈ g.nodes := by
  unfold DG.hasNode
  simp [List.contains_iff_exists_mem_beq, beq_iff_eq]

/-- Helper: membership in the target list of the outgoing edges. -/
theorem mem_outNeighbors_iff (g : DG.GraphState) (u t : ℕ) :
    t ∈ DG.outNeighbors g u ↔ (u, t) ∈ g.edges := by
  unfold DG.outNeighbors
  constructor
  · intro h
    obtain ⟨p, hp, rfl⟩ := List.mem_map.mp h
    obtain ⟨hmem, hfst⟩ := List.mem_filter.mp hp
    have : p.1 = u := by simpa [beq_iff_eq] using hfst
    rw [← this]
    exact hmem
  · intro h
    exact List.mem_map.mpr ⟨(u, t), List.mem_filter.mpr ⟨h, by simp⟩, rfl⟩

/-- Helper: node membership after the raw removal. -/
theorem mem_removeNodeRaw (g : DG.GraphState) (v x : ℕ) :
    x ∈ (DG.removeNodeRaw g v).nodes ↔ x ∈ g.nodes ∧ x ≠ v := by
  unfold DG.removeNodeRaw
  simp [List.mem_filter, bne_iff_ne]

/-- Helper: the removal step never changes the kind table. -/
theorem cleanupRemove_kinds (g : DG.GraphState) (a : Option ℕ) (v : ℕ) :
    (DG.cleanupRemove g a v).kinds = g.kinds := by
  unfold DG.cleanupRemove
  split_ifs
  · cases a <;> rfl
  · rfl

/-- Helper: node membership after the removal step. -/
theorem cleanupRemove_mem (g : DG.GraphState) (a : Option ℕ) (v x : ℕ) :
    x ∈ (DG.cleanupRemove g a v).nodes ↔ x ∈ g.nodes ∧ x ≠ v := by
  unfold DG.cleanupRemove
  split_ifs
  · cases a
    · exact mem_removeNodeRaw g v x
    · exact mem_removeNodeRaw g v x
  · exact mem_removeNodeRaw g v x

/-- Helper: the cleanup loop never changes the kind table. -/
theorem cleanupLoop_kinds (fuel : ℕ) (g : DG.GraphState)
    (w : List (Option ℕ × ℕ)) :
    (DG.cleanupLoop fuel g w).kinds = g.kinds := by
  induction fuel generalizing g w with
  | zero => rfl
  | succ fuel ih =>
    cases w with
    | nil => rfl
    | cons p rest =>
      obtain ⟨a, v⟩ := p
      unfold DG.cleanupLoop
      split_ifs with hcond
      · rw [ih, cleanupRemove_kinds]
      · exact ih g rest

/-- Helper: the cleanup loop only removes nodes. -/
theorem cleanupLoop_nodes_subset (fuel : ℕ) (g : DG.GraphState)
    (w : List (Option ℕ × ℕ)) (x : ℕ)
    (h : x ∈ (DG.cleanupLoop fuel g w).nodes) : x ∈ g.nodes := by
  induction fuel generalizing g w with
  | zero => exact h
  | succ fuel ih =>
    cases w with
    | nil => exact h
    | cons p rest =>
      obtain ⟨a, v⟩ := p
      unfold DG.cleanupLoop at h
      split_ifs at h with hcond
      · exact ((cleanupRemove_mem g a v x).mp (ih _ _ h)).1
      · exact ih _ _ h

/-- Helper: the cleanup loop keeps every node that is neither a range
vertex nor an empty vertex. -/
theorem cleanupLoop_keeps (fuel : ℕ) (g : DG.GraphState)
    (w : List (Option ℕ × ℕ)) (x : ℕ) (hx : x ∈ g.nodes)
    (hk : ¬(DG.kindOf g x = some .range ∨ DG.kindOf g x = some .empty)) :
    x ∈ (DG.cleanupLoop fuel g w).nodes := by
  induction fuel generalizing g w with
  | zero => exact hx
  | succ fuel ih =>
    cases w with
    | nil => exact hx
    | cons p rest =>
      obtain ⟨a, v⟩ := p
      unfold DG.cleanupLoop
      split_ifs with hcond
      · have hvx : x ≠ v := by
          rintro rfl
          exact hk hcond.2.2
        refine ih _ _ ((cleanupRemove_mem g a v x).mpr ⟨hx, hvx⟩) ?_
        unfold DG.kindOf
        rw [cleanupRemove_kinds]
        exact hk
      · exact ih _ _ hx hk

/-- Helper: removeVertex with cleanup removes the vertex. -/
theorem removeVertexCleanup_not_mem (g : DG.GraphState) (v : ℕ) :
    v ∉ (DG.removeVertexCleanup g v).nodes := by
  intro h
  have h1 := cleanupLoop_nodes_subset _ _ _ _ h
  exact ((mem_removeNodeRaw g v v).mp h1).2 rfl

/-- Helper: removeVertex with cleanup only removes nodes. -/
theorem removeVertexCleanup_subset (g : DG.GraphState) (v x : ℕ)
    (h : x ∈ (DG.removeVertexCleanup g v).nodes) : x ∈ g.nodes :=
  ((mem_removeNodeRaw g v x).mp (cleanupLoop_nodes_subset _ _ _ _ h)).1

/-- Helper: removeVertex with cleanup keeps the kind table. -/
theorem removeVertexCleanup_kinds (g : DG.GraphState) (v : ℕ) :
    (DG.removeVertexCleanup g v).kinds = g.kinds :=
  cleanupLoop_kinds _ _ _

/-- Helper: removeVertex with cleanup keeps every other vertex that is
neither a range vertex nor an empty vertex. -/
theorem removeVertexCleanup_keeps (g : DG.GraphState) (v x : ℕ)
    (hx : x ∈ g.nodes) (hne : x ≠ v)
    (hk : ¬(DG.kindOf g x = some .range ∨ DG.kindOf g x = some .empty)) :
    x ∈ (DG.removeVertexCleanup g v).nodes := by
  unfold DG.removeVertexCleanup
  exact cleanupLoop_keeps _ _ _ x ((mem_removeNodeRaw g v x).mpr ⟨hx, hne⟩) (by
    unfold DG.kindOf
    exact hk)

/-- Helper: the edge re-attachment fold keeps the node list. -/
theorem foldl_addEdge_nodes (e : ℕ) (l : List ℕ) (g : DG.GraphState) :
    (l.foldl (fun h t => if DG.hasNode h t then DG.addEdge h e t else h)
      g).nodes = g.nodes := by
  induction l generalizing g with
  | nil => rfl
  | cons t tl ih =>
    simp only [List.foldl_cons]
    rw [ih]
    split_ifs <;> rfl

/-- Helper: the edge re-attachment fold keeps the kind table. -/
theorem foldl_addEdge_kinds (e : ℕ) (l : List ℕ) (g : DG.GraphState) :
    (l.foldl (fun h t => if DG.hasNode h t then DG.addEdge h e t else h)
      g).kinds = g.kinds := by
  induction l generalizing g with
  | nil => rfl
  | cons t tl ih =>
    simp only [List.foldl_cons]
    rw [ih]
    split_ifs <;> rfl

/-- Helper: the edge re-attachment fold only adds edges. -/
theorem foldl_addEdge_edges_mono (e : ℕ) (l : List ℕ) (g : DG.GraphState)
    (p : ℕ × ℕ) (hp : p ∈ g.edges) :
    p ∈ (l.foldl (fun h t => if DG.hasNode h t then DG.addEdge h e t else h)
      g).edges := by
  induction l generalizing g with
  | nil => exact hp
  | cons t tl ih =>
    simp only [List.foldl_cons]
    apply ih
    split_ifs
    · exact List.mem_cons_of_mem _ hp
    · exact hp

/-- Helper: the edge re-attachment fold installs an edge to every
listed target that is present in the graph. -/
theorem foldl_addEdge_hits (e : ℕ) (l : List ℕ) (g : DG.GraphState)
    (t : ℕ) (ht : t ∈ l) (hnode : t ∈ g.nodes) :
    (e, t) ∈ (l.foldl
      (fun h t => if DG.hasNode h t then DG.addEdge h e t else h) g).edges := by
  induction l generalizing g with
  | nil => cases ht
  | cons s tl ih =>
    simp only [List.foldl_cons]
    rcases List.mem_cons.mp ht with rfl | hmem
    · rw [if_pos ((hasNode_iff_mem g t).mpr hnode)]
      exact foldl_addEdge_edges_mono e tl _ (e, t) (List.mem_cons_self _ _)
    · have hpres : (if DG.hasNode g s then DG.addEdge g e s else g).nodes =
          g.nodes := by
        split_ifs <;> rfl
      exact ih _ hmem (hpres ▸ hnode)

/-- Helper: removing an address clears its lookup. -/
theorem lookupAddr_removeCell_self (g : DG.GraphState) (a : ℕ) :
    DG.lookupAddr (DG.removeCellAddr g a) a = none := by
  have hnone : (g.addr.filter (fun p => p.1 != a)).find?
      (fun p => p.1 == a) = none := by
    rw [List.find?_eq_none]
    intro x hx
    have hne := (List.mem_filter.mp hx).2
    simp only [bne_iff_ne, ne_eq] at hne
    simp [hne]
  unfold DG.lookupAddr DG.removeCellAddr
  simp [hnone]

/-- Helper: setting an address makes its lookup return the vertex. -/
theorem lookupAddr_setCell_self (g : DG.GraphState) (a v : ℕ) :
    DG.lookupAddr (DG.setCellAddr g a v) a = some v := by
  unfold DG.lookupAddr DG.setCellAddr
  rw [List.find?_cons_of_pos _ (by simp)]
  rfl

/-- Helper: the kind of a vertex only depends on the kind table. -/
theorem kindOf_congr (g1 g2 : DG.GraphState) (x : ℕ)
    (h : g1.kinds = g2.kinds) : DG.kindOf g1 x = DG.kindOf g2 x := by
  unfold DG.kindOf
  rw [h]

/-- Helper: a fresh vertex carries the kind it was allocated with. -/
theorem kindOf_addNode_self (g : DG.GraphState) (k : DG.VertexKind) :
    DG.kindOf (DG.addNode g k).1 (DG.addNode g k).2 = some k := by
  unfold DG.kindOf DG.addNode
  rw [List.find?_cons_of_pos _ (by simp)]
  rfl

/-- Helper: allocation does not change the kind of other vertices. -/
theorem kindOf_addNode_ne (g : DG.GraphState) (k : DG.VertexKind) (x : ℕ)
    (hx : x ≠ g.nextId) : DG.kindOf (DG.addNode g k).1 x = DG.kindOf g x := by
  unfold DG.kindOf DG.addNode
  rw [List.find?_cons_of_neg _ (by simp [Ne.symm hx])]

/-- Helper: an edge out of a vertex makes its outdegree positive. -/
theorem outdegree_pos_of_mem (g : DG.GraphState) (u t : ℕ)
    (h : (u, t) ∈ g.edges) : 0 < DG.outdegree g u :=
  List.length_pos_of_mem ((mem_outNeighbors_iff g u t).mpr h)

/-- C9: setCellEmpty removes the cell vertex from the graph.  If the
vertex still had outgoing edges and one of its dependents survives the
cleanup (a formula vertex is never pruned), the address holds a fresh
Empty vertex carrying an edge to that dependent; and any vertex the
address holds after the operation is an Empty vertex with at least one
outgoing edge, so an Empty vertex exists at the address exactly when it
has outgoing edges.  The hypotheses are the graph well-formedness
invariants: allocated ids are below nextId and edges join existing
nodes. -/
theorem setCellEmpty_empty_invariant (g : DG.GraphState) (a v : ℕ)
    (hv : DG.lookupAddr g a = some v)
    (hwf : ∀ x ∈ g.nodes, x < g.nextId)
    (hedges : ∀ p ∈ g.edges, p.1 ∈ g.nodes ∧ p.2 ∈ g.nodes) :
    v ∉ (DG.setCellEmpty g a).nodes
    ∧ (∀ w, DG.lookupAddr (DG.setCellEmpty g a) a = some w →
        DG.kindOf (DG.setCellEmpty g a) w = some DG.VertexKind.empty ∧
          0 < DG.outdegree (DG.setCellEmpty g a) w)
    ∧ (∀ t, t ∈ DG.outNeighbors g v → t ≠ v →
        DG.kindOf g t = some DG.VertexKind.formula →
        ∃ w, DG.lookupAddr (DG.setCellEmpty g a) a = some w ∧
          DG.kindOf (DG.setCellEmpty g a) w = some DG.VertexKind.empty ∧
          t ∈ DG.outNeighbors (DG.setCellEmpty g a) w) := by
  have hv2 : v ∉ ((DG.outNeighbors g v).foldl
      (fun h t => if DG.hasNode h t then DG.addEdge h g.nextId t else h)
      (DG.removeVertexCleanup (DG.addNode g DG.VertexKind.empty).1 v)).nodes := by
    rw [foldl_addEdge_nodes]
    exact removeVertexCleanup_not_mem _ v
  have hkindE : DG.kindOf ((DG.outNeighbors g v).foldl
      (fun h t => if DG.hasNode h t then DG.addEdge h g.nextId t else h)
      (DG.removeVertexCleanup (DG.addNode g DG.VertexKind.empty).1 v))
      g.nextId = some DG.VertexKind.empty := by
    rw [kindOf_congr _ (DG.addNode g DG.VertexKind.empty).1 _ (by
      rw [foldl_addEdge_kinds, removeVertexCleanup_kinds])]
    exact kindOf_addNode_self g DG.VertexKind.empty
  have hhit : ∀ t, t ∈ DG.outNeighbors g v → t ≠ v →
      DG.kindOf g t = some DG.VertexKind.formula →
      (g.nextId, t) ∈ ((DG.outNeighbors g v).foldl
        (fun h t => if DG.hasNode h t then DG.addEdge h g.nextId t else h)
        (DG.removeVertexCleanup (DG.addNode g DG.VertexKind.empty).1 v)).edges := by
    intro t ht htv htk
    have htm : t ∈ g.nodes :=
      (hedges (v, t) ((mem_outNeighbors_iff g v t).mp ht)).2
    have hte : t ≠ g.nextId := Nat.ne_of_lt (hwf t htm)
    have hk0 : DG.kindOf (DG.addNode g DG.VertexKind.empty).1 t =
        some DG.VertexKind.formula := by
      rw [kindOf_addNode_ne g _ t hte]
      exact htk
    have ht0 : t ∈ (DG.addNode g DG.VertexKind.empty).1.nodes :=
      List.mem_cons_of_mem _ htm
    have ht1 := removeVertexCleanup_keeps _ v t ht0 htv (by
      rw [hk0]
      simp)
    exact foldl_addEdge_hits g.nextId _ _ t ht ht1
  have hbody : DG.setCellEmpty g a =
      (if 0 < DG.outdegree g v then
        (if DG.outdegree ((DG.outNeighbors g v).foldl
              (fun h t => if DG.hasNode h t then DG.addEdge h g.nextId t else h)
              (DG.removeVertexCleanup (DG.addNode g DG.VertexKind.empty).1 v))
              g.nextId = 0 then
          DG.removeCellAddr
            (DG.removeVertexCleanup ((DG.outNeighbors g v).foldl
              (fun h t => if DG.hasNode h t then DG.addEdge h g.nextId t else h)
              (DG.removeVertexCleanup (DG.addNode g DG.VertexKind.empty).1 v))
              g.nextId) a
        else
          DG.setCellAddr ((DG.outNeighbors g v).foldl
              (fun h t => if DG.hasNode h t then DG.addEdge h g.nextId t else h)
              (DG.removeVertexCleanup (DG.addNode g DG.VertexKind.empty).1 v))
            a g.nextId)
      else DG.removeCellAddr (DG.removeVertexCleanup g v) a) := by
    unfold DG.setCellEmpty DG.exchangeGraphNode
    rw [hv]
    rfl
  rw [hbody]
  by_cases hpos : 0 < DG.outdegree g v
  · rw [if_pos hpos]
    by_cases hz : DG.outdegree ((DG.outNeighbors g v).foldl
        (fun h t => if DG.hasNode h t then DG.addEdge h g.nextId t else h)
        (DG.removeVertexCleanup (DG.addNode g DG.VertexKind.empty).1 v))
        g.nextId = 0
    · rw [if_pos hz]
      refine ⟨?_, ?_, ?_⟩
      · intro hmem
        exact hv2 (removeVertexCleanup_subset _ _ _ hmem)
      · intro w hw
        rw [lookupAddr_removeCell_self] at hw
        exact Option.noConfusion hw
      · intro t ht htv htk
        exfalso
        have hdeg := outdegree_pos_of_mem _ _ _ (hhit t ht htv htk)
        omega
    · rw [if_neg hz]
      refine ⟨?_, ?_, ?_⟩
      · intro hmem
        exact hv2 hmem
      · intro w hw
        rw [lookupAddr_setCell_self] at hw
        injection hw with hw
        subst hw
        exact ⟨hkindE, Nat.pos_of_ne_zero hz⟩
      · intro t ht htv htk
        refine ⟨g.nextId, lookupAddr_setCell_self _ _ _, hkindE, ?_⟩
        exact (mem_outNeighbors_iff _ _ _).mpr (hhit t ht htv htk)
  · rw [if_neg hpos]
    refine ⟨?_, ?_, ?_⟩
    · intro hmem
      exact removeVertexCleanup_not_mem g v hmem
    · intro w hw
      rw [lookupAddr_removeCell_self] at hw
      exact Option.noConfusion hw
    · intro t ht htv htk
      exact absurd (List.length_pos_of_mem ht) hpos

/-- Witness for C9 on the concrete graph gW: emptying the cell at
address 10 removes vertex 0, and since its dependent formula vertex 1
survives, the address now holds an Empty vertex with an edge to
vertex 1. -/
theorem setCellEmpty_empty_invariant_witness :
    0 ∉ (DG.setCellEmpty gW 10).nodes ∧
    ∃ w, DG.lookupAddr (DG.setCellEmpty gW 10) 10 = some w ∧
      DG.kindOf (DG.setCellEmpty gW 10) w = some DG.VertexKind.empty ∧
      1 ∈ DG.outNeighbors (DG.setCellEmpty gW 10) w :=
  ⟨(setCellEmpty_empty_invariant gW 10 0 (by decide) (by decide) (by decide)).1,
   (setCellEmpty_empty_invariant gW 10 0 (by decide) (by decide)
      (by decide)).2.2 1 (by decide) (by decide) (by decide)⟩
